import Mathlib

/-!
# Verification of the cv-prd traceability-graph engine

A shallow embedding, in Lean 4, of the query-construction, wire-decoding,
graph-query and relationship-detection code of the cv-prd backend
(`app/services/graph_service.py`, `app/services/chunking_service.py`,
`app/services/orchestrator.py`), together with theorems settling the frozen
claims C1–C10 about that code.

Python strings are modelled as `List Char`; Python values that flow through
the graph service (query parameters and decoded wire cells) are modelled by
the inductive type `Value`.
-/

namespace CvPrd

/-- Python text (query strings, string values) is modelled as `List Char`. -/
abbrev Str := List Char

/-- Shorthand to write a modelled Python string with Lean string syntax. -/
def lit (s : String) : Str := s.data

/-- Python `str.replace(pat, rep)`: scan left to right, replace every
non-overlapping occurrence of `pat` by `rep`, never rescanning `rep`.
(For an empty `pat` Python interleaves `rep` between characters; every call
modelled here uses a non-empty pattern, for which this definition is exact.) -/
def pyReplace (pat rep : Str) : Str → Str
  | [] => []
  | c :: rest =>
    if pat ≠ [] ∧ pat.isPrefixOf (c :: rest)
    then rep ++ pyReplace pat rep (List.drop (pat.length - 1) rest)
    else c :: pyReplace pat rep rest
termination_by s => s.length
decreasing_by
  · simp only [List.length_drop, List.length_cons]
    omega
  · simp

/-- `GraphService._escape_value`, string case, before the surrounding quotes:
the five sequential `str.replace` calls of graph_service.py lines 134-141
(`\ → \\`, then `' → \'`, then newline `→ \n`, then carriage return `→ \r`,
then tab `→ \t`). -/
def escapeStringBody (s : Str) : Str :=
  pyReplace ['\t'] ['\\', 't']
    (pyReplace ['\r'] ['\\', 'r']
      (pyReplace ['\n'] ['\\', 'n']
        (pyReplace ['\''] ['\\', '\'']
          (pyReplace ['\\'] ['\\', '\\'] s))))

/-- `GraphService._escape_value` on a string: escape the five special
characters, then wrap in single quotes (`return f"'{escaped}'"`). -/
def escapeString (s : Str) : Str :=
  '\'' :: escapeStringBody s ++ ['\'']

/-- A Python value as it flows through the graph service: query parameters
and decoded wire cells.  Floats are carried as rationals (`floatRepr`
abstracts CPython's float repr; no verified claim inspects it).  The
`dict` branch of `_escape_value` is omitted: no modelled call site passes
a dict-valued parameter. -/
inductive Value where
  | vNone : Value
  | vStr (s : Str) : Value
  | vBool (b : Bool) : Value
  | vInt (n : Int) : Value
  | vFloat (q : ℚ) : Value
  | vList (l : List Value) : Value

/-- `str(int)` rendering (decimal digits; only its totality matters here). -/
def intRepr (n : Int) : Str := (toString n).data

/-- Stand-in for `str(float)` (CPython shortest-repr is not modelled; no
verified claim inspects the rendering of a float). -/
def floatRepr (q : ℚ) : Str := (toString q).data

/-- `", ".join(...)`. -/
def joinComma (l : List Str) : Str := (l.intersperse (lit ", ")).flatten

mutual

/-- `GraphService._escape_value` (graph_service.py lines 128-152): `None`
renders as `null`; strings are escaped and single-quoted; booleans render
lowercase (checked before the numeric branch, as in Python, where `bool`
is a subtype of `int`); numbers render verbatim; lists render recursively
inside `[` `]`. -/
def escape_value : Value → Str
  | .vNone => lit "null"
  | .vStr s => escapeString s
  | .vBool b => if b then lit "true" else lit "false"
  | .vInt n => intRepr n
  | .vFloat q => floatRepr q
  | .vList l => '[' :: joinComma (escape_values l) ++ [']']

/-- The elementwise escape of a list of values (the generator expression in
the `list` branch of `_escape_value`). -/
def escape_values : List Value → List Str
  | [] => []
  | v :: vs => escape_value v :: escape_values vs

end

/-! ## Re-parsing a single-quoted literal (the spec's "escaped-then-reparsed")

The spec's escaping property is stated by re-parsing: undo the escapes and
strip the surrounding quotes.  `parseQuoted` consumes one single-quoted
literal from the front of its input: it reads characters up to the first
unescaped `'`, decoding each backslash escape, and returns the decoded
content together with the text remaining after the closing quote. -/

/-- Decode one backslash escape: `\n`, `\r`, `\t` decode to the control
character; any other escaped character (in particular `\\` and `\'`)
decodes to itself. -/
def decodeEsc (c : Char) : Char :=
  if c = 'n' then '\n' else if c = 'r' then '\r' else if c = 't' then '\t' else c

/-- Scan the body of a single-quoted literal (the opening quote already
consumed): stop at the first unescaped `'`; a backslash consumes the next
character via `decodeEsc`; an unterminated literal is `none`. -/
def parseQuotedBody : Str → Option (Str × Str)
  | [] => none
  | c :: rest =>
    if c = '\\' then
      match rest with
      | [] => none
      | x :: tail => (parseQuotedBody tail).map (fun p => (decodeEsc x :: p.1, p.2))
    else if c = '\'' then some ([], rest)
    else (parseQuotedBody rest).map (fun p => (c :: p.1, p.2))
termination_by s => s.length
decreasing_by
  · simp only [List.length_cons]
    omega
  · simp

/-- Parse a single-quoted literal: an opening quote, then its body. -/
def parseQuoted (s : Str) : Option (Str × Str) :=
  match s with
  | '\'' :: rest => parseQuotedBody rest
  | _ => none

/-- Character-by-character expansion: the result of applying `f` to every
character and concatenating (used to relate the sequential `str.replace`
chain of `_escape_value` to a per-character description). -/
def charExpand (f : Char → Str) : Str → Str
  | [] => []
  | c :: rest => f c ++ charExpand f rest

/-- The per-character escape table of `_escape_value`'s string case. -/
def escChar (c : Char) : Str :=
  if c = '\\' then ['\\', '\\']
  else if c = '\'' then ['\\', '\'']
  else if c = '\n' then ['\\', 'n']
  else if c = '\r' then ['\\', 'r']
  else if c = '\t' then ['\\', 't']
  else [c]

/-! ## `_query` parameter substitution (graph_service.py lines 107-113) -/

/-- The connection state `GraphService` tracks: whether `self.client` is
set, and the `self.available` flag (FalkorDB module probe). -/
structure Conn where
  hasClient : Bool
  available : Bool

/-- `GraphService._query`'s construction of the processed query (lines
108-113): fold over the parameter map in insertion order; each step
escapes the value and replaces every occurrence of `$key` in the current
query text. -/
def processedQuery (cypher : Str) (params : List (String × Value)) : Str :=
  params.foldl (fun q kv => pyReplace ('$' :: lit kv.1) (escape_value kv.2) q) cypher

/-- The single `GRAPH.QUERY` command `_query` sends for the given query
text and parameters, or `none` when no command is sent because the client
handle is absent or the FalkorDB module probe failed (lines 99-105 return
`[]` before anything is executed). -/
def queryCommand (conn : Conn) (cypher : Str) (params : List (String × Value)) : Option Str :=
  if conn.hasClient ∧ conn.available then some (processedQuery cypher params) else none

/-! ## `create_relationship` (graph_service.py lines 297-320) -/

/-- The `props_clause` built from the `properties` dict (`""` when the
dict is empty or `None`, matching Python's falsy test). -/
def propsClause (properties : List (String × Value)) : Str :=
  if properties.isEmpty then []
  else lit "SET " ++
    joinComma (properties.map (fun kv => lit "r." ++ lit kv.1 ++ lit " = " ++ escape_value kv.2))

/-- The f-string query text of `create_relationship`: `rel_type` is inlined
verbatim between `[r:` and `]`; no validation of `rel_type` occurs anywhere
in the method. -/
def create_relationship_query (rel_type : String) (properties : List (String × Value)) : Str :=
  lit "\n        MATCH (c1:Chunk \x7bid: $source\x7d)\n        MATCH (c2:Chunk \x7bid: $target\x7d)\n        MERGE (c1)-[r:" ++
    lit rel_type ++ lit "]->(c2)\n        " ++ propsClause properties ++
    lit "\n        RETURN r\n        "

/-- The command `create_relationship` sends: it builds its query with
`rel_type` inlined and passes it straight to `_query` with the `source`
and `target` parameters. -/
def create_relationship (conn : Conn) (source_id target_id rel_type : String)
    (properties : List (String × Value)) : Option Str :=
  queryCommand conn (create_relationship_query rel_type properties)
    [("source", .vStr (lit source_id)), ("target", .vStr (lit target_id))]

/-- The closed allow-list of relationship-type tokens named by the spec
(spec §3 "Edges"); the code never consults any such list. -/
def specAllowedRelTypes : List String :=
  ["BELONGS_TO", "DEPENDS_ON", "REFERENCES", "IMPLEMENTS", "TESTS", "DOCUMENTS",
   "DESIGNS", "PARENT_OF"]

/-! ## `update_chunk_node` (graph_service.py lines 261-281) -/

/-- The dynamically built `SET` clauses: one `c.key = $key` per entry of
`updates` whose key is not `"id"`. -/
def update_set_clauses (updates : List (String × Value)) : List Str :=
  (updates.filter (fun kv => kv.1 ≠ "id")).map
    (fun kv => lit "c." ++ lit kv.1 ++ lit " = $" ++ lit kv.1)

/-- The parameter map `update_chunk_node` builds: `id` plus every non-`id`
update. -/
def update_chunk_params (chunk_id : String) (updates : List (String × Value)) :
    List (String × Value) :=
  ("id", Value.vStr (lit chunk_id)) :: updates.filter (fun kv => kv.1 ≠ "id")

/-- The command `update_chunk_node` sends: when every update key is `"id"`
(so `set_clauses` is empty) the method returns before calling `_query` and
no query text is even built. -/
def update_chunk_node (conn : Conn) (chunk_id : String)
    (updates : List (String × Value)) : Option Str :=
  if update_set_clauses updates = [] then none
  else queryCommand conn
    (lit "\n        MATCH (c:Chunk \x7bid: $id\x7d)\n        SET " ++
      joinComma (update_set_clauses updates) ++ lit "\n        RETURN c\n        ")
    (update_chunk_params chunk_id updates)

/-! ## Query templates as literal/placeholder shapes (for C4)

The claim "the constructed query equals the template with each placeholder
replaced exactly once by that parameter's escaped value" is made precise by
decomposing the template into literal segments and placeholder slots:
`flattenTemplate` renders the decomposition back into the template text,
and `substTemplate` — modelled from the claim's words, not from the code —
replaces each slot exactly once, never rescanning substituted text. -/

/-- One piece of a query template: a literal segment, or a `$key` slot. -/
inductive Seg where
  | litSeg (s : Str)
  | holeSeg (key : String)
deriving DecidableEq

/-- Render a decomposed template: a slot for `key` reads `$key`. -/
def flattenTemplate : List Seg → Str
  | [] => []
  | .litSeg s :: rest => s ++ flattenTemplate rest
  | .holeSeg k :: rest => '$' :: lit k ++ flattenTemplate rest

/-- The claim's idealized substitution: each slot replaced exactly once by
`lookup key`, literal segments untouched, substituted text never rescanned. -/
def substTemplate (lookup : String → Str) : List Seg → Str
  | [] => []
  | .litSeg s :: rest => s ++ substTemplate lookup rest
  | .holeSeg k :: rest => lookup k ++ substTemplate lookup rest

/-- Replace every slot for `k` by the literal `rep` (the effect one round
of the code's `str.replace` has on a decomposed template). -/
def substKey (k : String) (rep : Str) (shape : List Seg) : List Seg :=
  shape.map (fun seg => if seg = Seg.holeSeg k then Seg.litSeg rep else seg)

/-- The escaped value a parameter map assigns to `k` (first binding wins,
as in a Python dict); an unbound key keeps its `$key` text. -/
def escLookup (params : List (String × Value)) (k : String) : Str :=
  match params.find? (fun kv => kv.1 == k) with
  | some kv => escape_value kv.2
  | none => '$' :: lit k

/-! ## Wire-cell decoding: `_parse_cell_value` (graph_service.py lines 191-217) -/

/-- Python `==` between a decoded cell component and an `int` literal:
ints compare numerically, `bool` is a subtype of `int` (`True == 1`),
floats compare numerically; every other type compares unequal. -/
def pyEqInt (v : Value) (n : Int) : Bool :=
  match v with
  | .vInt m => m == n
  | .vBool b => (if b then (1 : Int) else 0) == n
  | .vFloat q => q == (n : ℚ)
  | _ => false

def isVList : Value → Bool
  | .vList _ => true
  | _ => false

def isVStr : Value → Bool
  | .vStr _ => true
  | _ => false

mutual

/-- `GraphService._parse_cell_value`: a cell that is not a list of length
≥ 2 is returned unchanged; otherwise `[type_code, value]` is decoded per
the FalkorDB type-code table.  The ARRAY branch iterates the value as
Python does: a list iterates its elements, a string its characters; any
other value raises `TypeError` (modelled as `.error ()`).  In the EDGE and
NODE branches the inner `if len > 4 else` / `if len > 2 else` defaults of
the source are dead (guarded by `len >= 5` / `len >= 3`); `getD`'s default
is likewise never used. -/
def parse_cell_value : Value → Except Unit Value
  | .vList (t :: v :: _rest) =>
    if pyEqInt t 1 then .ok .vNone
    else if pyEqInt t 6 then
      match v with
      | .vList l => (parseElems l).map Value.vList
      | .vStr s => .ok (.vList (s.map (fun c => Value.vStr [c])))
      | _ => .error ()
    else if pyEqInt t 7 then
      .ok (match v with
        | .vList l => if 5 ≤ l.length then l.getD 4 .vNone else .vList l
        | _ => v)
    else if pyEqInt t 8 then
      .ok (match v with
        | .vList l => if 3 ≤ l.length then l.getD 2 .vNone else .vList l
        | _ => v)
    else .ok v
  | cell => .ok cell

/-- The ARRAY branch's list comprehension: decode each list-shaped element
recursively, keep every other element as-is. -/
def parseElems : List Value → Except Unit (List Value)
  | [] => .ok []
  | e :: es => do
    let e' ← (match e with
      | .vList _ => parse_cell_value e
      | _ => .ok e)
    let es' ← parseElems es
    .ok (e' :: es')

end

/-! ## `ChunkingService` relationship detection (chunking_service.py) -/

/-- `str.lower()` (ASCII; the PRD texts of the claims are ASCII). -/
def pyLower (s : Str) : Str := s.map Char.toLower

/-- A regex `\w` word character (ASCII: letter, digit or underscore). -/
def isWordChar (c : Char) : Bool := c.isAlphanum || c = '_'

/-- Maximal runs of characters satisfying `p` (the accumulator carries the
current run reversed). -/
def runsAux (p : Char → Bool) : Str → Str → List Str
  | [], acc => if acc.isEmpty then [] else [acc.reverse]
  | c :: rest, acc =>
    if p c then runsAux p rest (c :: acc)
    else if acc.isEmpty then runsAux p rest []
    else acc.reverse :: runsAux p rest []

/-- `re.findall(r'\w+', s)`: the maximal word-character runs of `s`. -/
def findallWords (s : Str) : List Str := runsAux isWordChar s []

/-- `s.split()`: the maximal non-whitespace runs of `s`. -/
def splitWs (s : Str) : List Str := runsAux (fun c => !c.isWhitespace) s []

/-- Python `needle in hay` on strings: substring containment. -/
def containsSub (needle : Str) : Str → Bool
  | [] => needle.isEmpty
  | c :: rest => needle.isPrefixOf (c :: rest) || containsSub needle rest

/-- `set(re.findall(r'\w+', text.lower()))`. -/
def wordSet (text : Str) : Finset Str := (findallWords (pyLower text)).toFinset

/-- The stop-word set of `_has_reference`. -/
def stop_words : Finset Str :=
  ((["the", "a", "an", "and", "or", "but", "in", "on", "at", "to", "for", "of",
     "with", "by"].map lit).toFinset : Finset Str)

/-- The extended stop-word set of `_has_implementation` (the same words
plus `shall`, `must`, `will`). -/
def stop_words_ext : Finset Str :=
  ((["the", "a", "an", "and", "or", "but", "in", "on", "at", "to", "for", "of",
     "with", "by", "shall", "must", "will"].map lit).toFinset : Finset Str)

/-- A chunk as the detector sees it: its id, its type (modelled by the
`ChunkType` value string), its text, and `metadata["section_title"]`. -/
structure Chunk where
  id : String
  chunk_type : String
  text : Str
  section_title : Str

/-- `ChunkingService._has_dependency`: a dependency keyword occurs in the
lowercased text, and some token (length > 3) of the target's section title
occurs in it too. -/
def _has_dependency (text : Str) (target : Chunk) : Bool :=
  let text_lower := pyLower text
  let has_keyword := (["depends on", "requires", "needs", "prerequisite",
    "relies on", "based on"].map lit).any (fun kw => containsSub kw text_lower)
  if has_keyword then
    (splitWs (pyLower target.section_title)).any
      (fun term => decide (3 < term.length) && containsSub term text_lower)
  else false

/-- `ChunkingService._has_reference`: ≥ 3 common content words after
stop-word removal. -/
def _has_reference (text : Str) (target : Chunk) : Bool :=
  3 ≤ ((wordSet text \ stop_words) ∩ (wordSet target.text \ stop_words)).card

/-- `ChunkingService._has_implementation`: ≥ 2 common content words after
extended stop-word removal. -/
def _has_implementation (feature_text requirement_text : Str) : Bool :=
  2 ≤ ((wordSet requirement_text \ stop_words_ext) ∩
        (wordSet feature_text \ stop_words_ext)).card

/-- The up-to-three relationships one ordered pair contributes, in the
order the three checks run. -/
def pairRels (c1 c2 : Chunk) : List (String × String × String) :=
  (if _has_dependency c1.text c2 then [(c1.id, c2.id, "DEPENDS_ON")] else []) ++
  (if _has_reference c1.text c2 then [(c1.id, c2.id, "REFERENCES")] else []) ++
  (if c1.chunk_type = "feature" ∧ c2.chunk_type = "requirement" then
    (if _has_implementation c1.text c2.text then [(c1.id, c2.id, "IMPLEMENTS")] else [])
   else [])

/-- `ChunkingService.detect_relationships`: all ordered pairs `(i, j)` with
`i < j`, in loop order. -/
def detect_relationships : List Chunk → List (String × String × String)
  | [] => []
  | c1 :: rest => (rest.map (pairRels c1)).flatten ++ detect_relationships rest

/-- Modelled from the claim's words: the IMPLEMENTS edges the spec
predicts — over ordered pairs `(i, j)`, `i < j`, with `type i = feature`
and `type j = requirement`, exactly when the lowercased tokenized word
sets of the two texts, minus the stop-word list extended with `shall`,
`must` and `will`, share at least 2 words. -/
def specImplEdges : List Chunk → List (String × String × String)
  | [] => []
  | c1 :: rest =>
    (rest.map (fun c2 =>
      if c1.chunk_type = "feature" ∧ c2.chunk_type = "requirement" ∧
          2 ≤ ((wordSet c1.text \ stop_words_ext) ∩
                (wordSet c2.text \ stop_words_ext)).card
      then [(c1.id, c2.id, "IMPLEMENTS")] else [])).flatten ++ specImplEdges rest

/-! ## The graph store's state and the denotations of the fixed queries

The read operations of `GraphService` are modelled over an explicit graph
state.  Each operation calls `runQuery` — the row-list level of `_query`:
when the client handle is absent or the FalkorDB module probe failed,
`_query` returns `[]` before anything is executed (lines 99-105);
otherwise the operation's fixed Cypher query is evaluated over the state.
Each query's denotation is written out from Cypher matching semantics:
one row per match of the pattern (a tuple of node/edge bindings),
`DISTINCT` deduplicates rows, and a variable-length `-[:T*1..d]->` binds
one path per relationship-distinct path of length 1..d.  For the few
operations whose query uses aggregation shapes not needed by any claim
(`get_all_prds`, `get_graph_stats`, the row shape of `get_prd_details`,
`get_all_tests_for_prd` with its `ORDER BY`), the denotation is a
parameter of the model. -/

/-- A `Chunk` node's properties. -/
structure GNode where
  id : String
  typ : String
  text : String
  priority : String
  context : String
deriving DecidableEq

/-- A `PRD` node's properties. -/
structure PrdNode where
  id : String
  name : String
  description : String
deriving DecidableEq

/-- A `Symbol` node's properties (identified by `qualified_name`). -/
structure SymNode where
  qualified_name : String
  kind : String
  file : String
deriving DecidableEq

/-- A directed edge; `src`/`dst` name the endpoint nodes (a chunk's `id`,
a PRD's `id`, or a symbol's `qualified_name`). -/
structure GEdge where
  src : String
  dst : String
  typ : String
deriving DecidableEq

/-- The graph store's state. -/
structure GraphState where
  chunks : List GNode
  prds : List PrdNode
  symbols : List SymNode
  edges : List GEdge

/-- `_query` at the row-list level: `[]` without executing anything when
degraded, the query's denotation otherwise. -/
def runQuery {α : Type} (conn : Conn) (g : GraphState) (denote : GraphState → List α) :
    List α :=
  if conn.hasClient ∧ conn.available then denote g else []

/-- The requirement-class type filter `req.type IN ['requirement',
'feature', 'constraint']`. -/
def reqTypes : List String := ["requirement", "feature", "constraint"]

/-- Matches of `(req:Chunk)-[:BELONGS_TO]->(p:PRD {id: prd_id})` with the
requirement-class filter: one row per (chunk, edge, PRD-node) binding. -/
def reqMatches (g : GraphState) (prd_id : String) : List (GNode × GEdge × PrdNode) :=
  (g.chunks.flatMap (fun c => g.edges.flatMap (fun e =>
    g.prds.map (fun p => (c, e, p))))).filter
    (fun m => decide (m.2.1.src = m.1.id ∧ m.2.1.dst = m.2.2.id ∧
      m.2.1.typ = "BELONGS_TO" ∧ m.2.2.id = prd_id ∧ m.1.typ ∈ reqTypes))

/-- Matches of `(t:Chunk)-[:relType]->(req:Chunk)-[:BELONGS_TO]->(p:PRD
{id: prd_id})` with the requirement-class filter on `req`: one row per
(t, e1, req, e2, p) binding. -/
def coveredMatches (g : GraphState) (prd_id relType : String) :
    List (GNode × GEdge × GNode × GEdge × PrdNode) :=
  (g.chunks.flatMap (fun t => g.edges.flatMap (fun e1 =>
    g.chunks.flatMap (fun req => g.edges.flatMap (fun e2 =>
      g.prds.map (fun p => (t, e1, req, e2, p))))))).filter
    (fun m => decide (m.2.1.src = m.1.id ∧ m.2.1.dst = m.2.2.1.id ∧
      m.2.1.typ = relType ∧ m.2.2.2.1.src = m.2.2.1.id ∧
      m.2.2.2.1.dst = m.2.2.2.2.id ∧ m.2.2.2.1.typ = "BELONGS_TO" ∧
      m.2.2.2.2.id = prd_id ∧ m.2.2.1.typ ∈ reqTypes))

/-- The same matches without the type filter (the `total_tests` /
`total_docs` count queries). -/
def artifactMatches (g : GraphState) (prd_id relType : String) :
    List (GNode × GEdge × GNode × GEdge × PrdNode) :=
  (g.chunks.flatMap (fun t => g.edges.flatMap (fun e1 =>
    g.chunks.flatMap (fun req => g.edges.flatMap (fun e2 =>
      g.prds.map (fun p => (t, e1, req, e2, p))))))).filter
    (fun m => decide (m.2.1.src = m.1.id ∧ m.2.1.dst = m.2.2.1.id ∧
      m.2.1.typ = relType ∧ m.2.2.2.1.src = m.2.2.1.id ∧
      m.2.2.2.1.dst = m.2.2.2.2.id ∧ m.2.2.2.1.typ = "BELONGS_TO" ∧
      m.2.2.2.2.id = prd_id))

/-- `RETURN count(req)` over `reqMatches`. -/
def totalReqCount (g : GraphState) (prd_id : String) : Nat :=
  (reqMatches g prd_id).length

/-- `RETURN count(DISTINCT req)` over `coveredMatches`. -/
def coveredReqCount (g : GraphState) (prd_id relType : String) : Nat :=
  (((coveredMatches g prd_id relType).map (fun m => m.2.2.1)).dedup).length

/-- `RETURN count(t)` over `artifactMatches`. -/
def artifactTotal (g : GraphState) (prd_id relType : String) : Nat :=
  (artifactMatches g prd_id relType).length

/-- Round-half-to-even to an integer (the rounding Python's `round` uses;
modelled on exact rationals — CPython rounds the nearest binary float,
which agrees on every value the claims exercise). -/
def roundHalfEven (q : ℚ) : ℤ :=
  let f := ⌊q⌋
  let r := q - f
  if r < 1/2 then f
  else if 1/2 < r then f + 1
  else if 2 ∣ f then f else f + 1

/-- Python `round(x, 2)`. -/
def pyRound2 (q : ℚ) : ℚ := (roundHalfEven (q * 100) : ℚ) / 100

/-- The dictionary `get_test_coverage` / `get_documentation_coverage`
return (`total_artifacts` stands for `total_tests` / `total_docs`). -/
structure Coverage where
  prd_id : String
  total_requirements : Nat
  covered_requirements : Nat
  uncovered_requirements : Int
  total_artifacts : Nat
  coverage_percent : ℚ
deriving DecidableEq

/-- `GraphService.get_test_coverage` (lines 408-449): three count queries
(each `[]` when degraded), then the arithmetic of the returned dict.
A count query returns a single row; `req_result[0].get(..., 0) if
req_result else 0` is the head-or-zero pattern mirrored here. -/
def get_test_coverage (conn : Conn) (g : GraphState) (prd_id : String) : Coverage :=
  let req_result := runQuery conn g (fun g => [totalReqCount g prd_id])
  let total_requirements := req_result.headD 0
  let covered_result := runQuery conn g (fun g => [coveredReqCount g prd_id "TESTS"])
  let covered_requirements := covered_result.headD 0
  let test_result := runQuery conn g (fun g => [artifactTotal g prd_id "TESTS"])
  let total_tests := test_result.headD 0
  let coverage_percent : ℚ :=
    if 0 < total_requirements then
      (covered_requirements : ℚ) / (total_requirements : ℚ) * 100
    else 0
  { prd_id := prd_id
    total_requirements := total_requirements
    covered_requirements := covered_requirements
    uncovered_requirements := (total_requirements : Int) - (covered_requirements : Int)
    total_artifacts := total_tests
    coverage_percent := pyRound2 coverage_percent }

/-- `GraphService.get_documentation_coverage` (lines 451-492): identical
shape over `DOCUMENTS`. -/
def get_documentation_coverage (conn : Conn) (g : GraphState) (prd_id : String) :
    Coverage :=
  let req_result := runQuery conn g (fun g => [totalReqCount g prd_id])
  let total_requirements := req_result.headD 0
  let covered_result := runQuery conn g (fun g => [coveredReqCount g prd_id "DOCUMENTS"])
  let covered_requirements := covered_result.headD 0
  let doc_result := runQuery conn g (fun g => [artifactTotal g prd_id "DOCUMENTS"])
  let total_docs := doc_result.headD 0
  let coverage_percent : ℚ :=
    if 0 < total_requirements then
      (covered_requirements : ℚ) / (total_requirements : ℚ) * 100
    else 0
  { prd_id := prd_id
    total_requirements := total_requirements
    covered_requirements := covered_requirements
    uncovered_requirements := (total_requirements : Int) - (covered_requirements : Int)
    total_artifacts := total_docs
    coverage_percent := pyRound2 coverage_percent }

/-- The spec's R: the number of requirement-class chunks with a
`BELONGS_TO` edge to the PRD. -/
def specReqCount (g : GraphState) (prd_id : String) : Nat :=
  (g.chunks.filter (fun c => decide (c.typ ∈ reqTypes ∧
    (⟨c.id, prd_id, "BELONGS_TO"⟩ : GEdge) ∈ g.edges))).length

/-- The spec's C: the number of those chunks with at least one inbound
edge of the given type from a chunk node. -/
def specCoveredCount (g : GraphState) (prd_id relType : String) : Nat :=
  (g.chunks.filter (fun c => decide (c.typ ∈ reqTypes ∧
    (⟨c.id, prd_id, "BELONGS_TO"⟩ : GEdge) ∈ g.edges ∧
    ∃ t ∈ g.chunks, (⟨t.id, c.id, relType⟩ : GEdge) ∈ g.edges))).length

/-! ## Variable-length `DEPENDS_ON` traversal (`get_dependencies`) -/

/-- One row of `get_dependencies` (`RETURN dep.id as chunk_id, dep.type,
dep.text, dep.priority`). -/
structure DepRow where
  chunk_id : String
  typ : String
  text : String
  priority : String
deriving DecidableEq

def depRow (dep : GNode) : DepRow := ⟨dep.id, dep.typ, dep.text, dep.priority⟩

/-- The paths a `-[:DEPENDS_ON*1..depth]->` pattern binds starting at
`cur`: one entry per relationship-distinct path of length 1..depth
(`used` holds the edges already on the path, per Cypher's relationship
uniqueness). -/
def depPaths (g : GraphState) (used : List GEdge) (cur : String) : Nat → List (List GEdge)
  | 0 => []
  | Nat.succ d =>
    (g.edges.filter (fun e => decide (e.src = cur ∧ e.typ = "DEPENDS_ON" ∧
      e ∉ used))).flatMap
      (fun e => [e] :: (depPaths g (e :: used) e.dst d).map (e :: ·))

/-- The end node of a path (its last edge's destination). -/
def pathEnd (p : List GEdge) (dflt : String) : String :=
  match p.getLast? with
  | some e => e.dst
  | none => dflt

/-- Rows of `MATCH (c:Chunk {id})-[:DEPENDS_ON*1..depth]->(dep:Chunk)`:
one row per (c-binding, path, dep-binding); no `DISTINCT`. -/
def depRowsOut (g : GraphState) (chunk_id : String) (depth : Nat) : List DepRow :=
  (g.chunks.filter (fun c => c.id == chunk_id)).flatMap (fun _c =>
    (depPaths g [] chunk_id depth).flatMap (fun p =>
      (g.chunks.filter (fun dep => dep.id == pathEnd p chunk_id)).map depRow))

/-- Reversing every edge turns the incoming-direction pattern
`(dep:Chunk)-[:DEPENDS_ON*1..d]->(c:Chunk {id})` into the outgoing
pattern anchored at `c`. -/
def flipGraph (g : GraphState) : GraphState :=
  { g with edges := g.edges.map (fun e => ⟨e.dst, e.src, e.typ⟩) }

/-- `GraphService.get_dependencies` (lines 560-582): outgoing or incoming
bounded traversal; the rows carry the reached chunk's properties. -/
def get_dependencies (conn : Conn) (g : GraphState) (chunk_id : String)
    (depth : Nat) (direction : String) : List DepRow :=
  runQuery conn g (fun g =>
    if direction = "outgoing" then depRowsOut g chunk_id depth
    else depRowsOut (flipGraph g) chunk_id depth)

/-- A valid `DEPENDS_ON` chain starting at `cur` (the specification-side
description of a path: consecutive edges of the right type following
source to destination). -/
def isDepChain (g : GraphState) (cur : String) : List GEdge → Bool
  | [] => true
  | e :: rest =>
    decide (e ∈ g.edges) && (e.typ == "DEPENDS_ON") && (e.src == cur) &&
      isDepChain g e.dst rest

/-! ## The remaining read operations (for the degraded-mode claim) -/

/-- Matches of `(t:Chunk)-[:relType]->(req:Chunk {id: chunk_id})`,
returning `t`'s properties (the `get_*_for_requirement` queries). -/
def artifactsForReq (g : GraphState) (chunk_id relType : String) : List GNode :=
  ((g.chunks.flatMap (fun t => g.edges.flatMap (fun e =>
    g.chunks.map (fun req => (t, e, req))))).filter
    (fun m => decide (m.2.1.src = m.1.id ∧ m.2.1.dst = m.2.2.id ∧
      m.2.1.typ = relType ∧ m.2.2.id = chunk_id))).map (fun m => m.1)

def get_tests_for_requirement (conn : Conn) (g : GraphState) (chunk_id : String) :
    List GNode :=
  runQuery conn g (fun g => artifactsForReq g chunk_id "TESTS")

def get_documentation_for_requirement (conn : Conn) (g : GraphState)
    (chunk_id : String) : List GNode :=
  runQuery conn g (fun g => artifactsForReq g chunk_id "DOCUMENTS")

def get_designs_for_requirement (conn : Conn) (g : GraphState) (chunk_id : String) :
    List GNode :=
  runQuery conn g (fun g => artifactsForReq g chunk_id "DESIGNS")

/-- `get_all_tests_for_prd`: its query's `ORDER BY` makes its row order a
backend detail; the denotation is a parameter. -/
def get_all_tests_for_prd {α : Type} (conn : Conn) (g : GraphState)
    (denote : GraphState → List α) (_prd_id : String) : List α :=
  runQuery conn g denote

/-- Outgoing single-hop neighbours `(c:Chunk {id})-[:relType]->(n:Chunk)`
(rows carry `n`'s properties). -/
def neighborsOut (g : GraphState) (chunk_id relType : String) : List GNode :=
  (g.chunks.filter (fun c => c.id == chunk_id)).flatMap (fun c =>
    (g.edges.filter (fun e => decide (e.src = c.id ∧ e.typ = relType))).flatMap
      (fun e => g.chunks.filter (fun n => n.id == e.dst)))

/-- Incoming single-hop neighbours `(n:Chunk)-[:relType]->(c:Chunk {id})`. -/
def neighborsIn (g : GraphState) (chunk_id relType : String) : List GNode :=
  (g.chunks.filter (fun c => c.id == chunk_id)).flatMap (fun c =>
    (g.edges.filter (fun e => decide (e.dst = c.id ∧ e.typ = relType))).flatMap
      (fun e => g.chunks.filter (fun n => n.id == e.src)))

/-- The four lists `get_all_relationships` returns. -/
structure AllRels where
  dependencies : List GNode
  references : List GNode
  dependents : List GNode
  children : List GNode
deriving DecidableEq

/-- `GraphService.get_all_relationships` (lines 584-627): four single-hop
queries, each row kept only when its `id` is truthy (non-empty). -/
def get_all_relationships (conn : Conn) (g : GraphState) (chunk_id : String) :
    AllRels :=
  { dependencies :=
      (runQuery conn g (fun g => neighborsOut g chunk_id "DEPENDS_ON")).filter
        (fun r => r.id ≠ "")
    references :=
      (runQuery conn g (fun g => neighborsOut g chunk_id "REFERENCES")).filter
        (fun r => r.id ≠ "")
    dependents :=
      (runQuery conn g (fun g => neighborsIn g chunk_id "DEPENDS_ON")).filter
        (fun r => r.id ≠ "")
    children :=
      (runQuery conn g (fun g => neighborsOut g chunk_id "PARENT_OF")).filter
        (fun r => r.id ≠ "") }

/-- Undirected one-hop matches `(c:Chunk {id})-[r]-(related:Chunk)` with
the relationship type (rows of `find_related_chunks`). -/
def relatedMatches (g : GraphState) (chunk_id : String) : List (GNode × String) :=
  (g.chunks.filter (fun c => c.id == chunk_id)).flatMap (fun c =>
    g.edges.flatMap (fun e =>
      (if e.src = c.id then (g.chunks.filter (fun n => n.id == e.dst)).map
        (fun n => (n, e.typ)) else []) ++
      (if e.dst = c.id then (g.chunks.filter (fun n => n.id == e.src)).map
        (fun n => (n, e.typ)) else [])))

/-- `GraphService.find_related_chunks` (lines 629-642): `DISTINCT` rows,
then `LIMIT`. -/
def find_related_chunks (conn : Conn) (g : GraphState) (chunk_id : String)
    (max_results : Nat) : List (GNode × String) :=
  runQuery conn g (fun g => ((relatedMatches g chunk_id).dedup).take max_results)

/-- `get_all_prds`: aggregation query; denotation is a parameter. -/
def get_all_prds {α : Type} (conn : Conn) (g : GraphState)
    (denote : GraphState → List α) : List α :=
  runQuery conn g denote

/-- The artifact chunk types excluded from a PRD's requirement listing. -/
def artifact_types : List String :=
  ["test_case", "unit_test_spec", "integration_test_spec", "acceptance_criteria",
   "documentation", "user_manual", "api_doc", "technical_spec", "release_note",
   "design_spec", "screen_flow", "wireframe"]

def test_types : List String :=
  ["test_case", "unit_test_spec", "integration_test_spec", "acceptance_criteria"]

/-- The record `get_prd_details` assembles. -/
structure PrdDetails where
  prd : PrdNode
  chunks : List GNode
  tests : List GNode
  chunk_count : Nat
  test_count : Nat
deriving DecidableEq

/-- Matches of `(c:Chunk)-[:BELONGS_TO]->(p:PRD {id: prd_id})`, returning
`c`'s properties. -/
def chunksOfPrd (g : GraphState) (prd_id : String) : List GNode :=
  ((g.chunks.flatMap (fun c => g.edges.flatMap (fun e =>
    g.prds.map (fun p => (c, e, p))))).filter
    (fun m => decide (m.2.1.src = m.1.id ∧ m.2.1.dst = m.2.2.id ∧
      m.2.1.typ = "BELONGS_TO" ∧ m.2.2.id = prd_id))).map (fun m => m.1)

/-- `GraphService.get_prd_details` (lines 672-710): `None` when the PRD
query returns no row; otherwise the chunk rows split into requirements
(non-artifact types) and tests. -/
def get_prd_details (conn : Conn) (g : GraphState) (prd_id : String) :
    Option PrdDetails :=
  match runQuery conn g (fun g => g.prds.filter (fun p => p.id == prd_id)) with
  | [] => none
  | p :: _ =>
    let chunks := runQuery conn g (fun g => chunksOfPrd g prd_id)
    let all_chunks := chunks.filter (fun c => c.id ≠ "")
    let requirements := all_chunks.filter (fun c => decide (c.typ ∉ artifact_types))
    let tests := all_chunks.filter (fun c => decide (c.typ ∈ test_types))
    some { prd := p, chunks := requirements, tests := tests,
           chunk_count := requirements.length, test_count := tests.length }

/-- `get_graph_stats` (lines 716-727): aggregation query (denotation a
parameter); `results[0] if results else {}` becomes head-or-none. -/
def get_graph_stats {α : Type} (conn : Conn) (g : GraphState)
    (denote : GraphState → List α) : Option α :=
  (runQuery conn g denote).head?

/-- The aggregate `get_full_traceability` builds (lines 494-554). -/
structure Traceability where
  chunk_id : String
  chunk : Option GNode
  dependencies : List DepRow
  dependents : List DepRow
  tests : List GNode
  documentation : List GNode
  designs : List GNode
  implementations : List SymNode
deriving DecidableEq

/-- Matches of `(sym:Symbol)-[:IMPLEMENTS]->(c:Chunk {id})`. -/
def implsForChunk (g : GraphState) (chunk_id : String) : List SymNode :=
  ((g.symbols.flatMap (fun s => g.edges.flatMap (fun e =>
    g.chunks.map (fun c => (s, e, c))))).filter
    (fun m => decide (m.2.1.src = m.1.qualified_name ∧ m.2.1.dst = m.2.2.id ∧
      m.2.1.typ = "IMPLEMENTS" ∧ m.2.2.id = chunk_id))).map (fun m => m.1)

/-- `GraphService.get_full_traceability`: the chunk's own row, the two
`DISTINCT` bounded traversals, the three artifact queries, and the
Symbol query. -/
def get_full_traceability (conn : Conn) (g : GraphState) (chunk_id : String)
    (depth : Nat) : Traceability :=
  { chunk_id := chunk_id
    chunk := (runQuery conn g (fun g =>
      g.chunks.filter (fun c => c.id == chunk_id))).head?
    dependencies := runQuery conn g (fun g => (depRowsOut g chunk_id depth).dedup)
    dependents := runQuery conn g (fun g =>
      (depRowsOut (flipGraph g) chunk_id depth).dedup)
    tests := get_tests_for_requirement conn g chunk_id
    documentation := get_documentation_for_requirement conn g chunk_id
    designs := get_designs_for_requirement conn g chunk_id
    implementations := runQuery conn g (fun g => implsForChunk g chunk_id) }

/-- A diamond dependency graph: `a` depends on `b` and `c`, both of which
depend on `d` — two distinct paths of length 2 from `a` reach `d`. -/
def depCexGraph : GraphState :=
  { chunks := [⟨"a", "requirement", "", "", ""⟩, ⟨"b", "requirement", "", "", ""⟩,
               ⟨"c", "requirement", "", "", ""⟩, ⟨"d", "requirement", "", "", ""⟩],
    prds := [],
    symbols := [],
    edges := [⟨"a", "b", "DEPENDS_ON"⟩, ⟨"a", "c", "DEPENDS_ON"⟩,
              ⟨"b", "d", "DEPENDS_ON"⟩, ⟨"c", "d", "DEPENDS_ON"⟩] }

/-- The spec's coverage scenario: one PRD with four requirement-class
chunks, two of them tested. -/
def covGraph : GraphState :=
  { chunks := [⟨"c1", "requirement", "", "", ""⟩, ⟨"c2", "requirement", "", "", ""⟩,
               ⟨"c3", "feature", "", "", ""⟩, ⟨"c4", "constraint", "", "", ""⟩,
               ⟨"t1", "test_case", "", "", ""⟩, ⟨"t2", "test_case", "", "", ""⟩],
    prds := [⟨"p", "P", ""⟩],
    symbols := [],
    edges := [⟨"c1", "p", "BELONGS_TO"⟩, ⟨"c2", "p", "BELONGS_TO"⟩,
              ⟨"c3", "p", "BELONGS_TO"⟩, ⟨"c4", "p", "BELONGS_TO"⟩,
              ⟨"t1", "c1", "TESTS"⟩, ⟨"t2", "c2", "TESTS"⟩] }

/-! ## The per-chunk write path of `PRDOrchestrator.process_prd`
(orchestrator.py lines 108-159)

Chunks are identified by their id.  Each backend write either succeeds or
raises, given by a failure oracle per backend.  The model records the
calls actually made, in order, and whether the loop ended with an uncaught
exception: inside the loop, `index_chunk` (vector store) is called bare,
`db_service.create_chunk` is wrapped in `try/except` (logged and
swallowed), and `create_chunk_node` / `link_chunk_to_prd` (graph store)
are called bare, so a vector or graph failure propagates and aborts the
loop.  The embedding call is total here (out of the claim's scope). -/

inductive WEvent where
  | vecWrite (c : String)
  | dbWrite (c : String)
  | dbCaught (c : String)
  | graphNode (c : String)
  | graphLink (c : String)
deriving DecidableEq

/-- The per-chunk loop of `process_prd`: the event trace and, when a bare
(unwrapped) write raised, the propagated exception. -/
def process_chunks (dbEnabled graphEnabled : Bool)
    (vectorFails dbFails graphNodeFails graphLinkFails : String → Bool) :
    List String → List WEvent × Option Unit
  | [] => ([], none)
  | c :: rest =>
    let ev1 : List WEvent := [WEvent.vecWrite c]
    if vectorFails c then (ev1, some ()) else
    let ev2 := ev1 ++ (if dbEnabled then
      [WEvent.dbWrite c] ++ (if dbFails c then [WEvent.dbCaught c] else []) else [])
    if graphEnabled then
      let ev3 := ev2 ++ [WEvent.graphNode c]
      if graphNodeFails c then (ev3, some ()) else
      let ev4 := ev3 ++ [WEvent.graphLink c]
      if graphLinkFails c then (ev4, some ()) else
      let r := process_chunks dbEnabled graphEnabled vectorFails dbFails
        graphNodeFails graphLinkFails rest
      (ev4 ++ r.1, r.2)
    else
      let r := process_chunks dbEnabled graphEnabled vectorFails dbFails
        graphNodeFails graphLinkFails rest
      (ev2 ++ r.1, r.2)

/-- The calls one chunk receives when no unwrapped write raises: vector
write, then the relational write (its failure caught and logged), then the
two graph writes. -/
def perChunkEvents (dbEnabled graphEnabled : Bool) (dbFails : String → Bool)
    (c : String) : List WEvent :=
  [WEvent.vecWrite c] ++
  (if dbEnabled then
    [WEvent.dbWrite c] ++ (if dbFails c then [WEvent.dbCaught c] else []) else []) ++
  (if graphEnabled then [WEvent.graphNode c, WEvent.graphLink c] else [])

/-! # Theorems -/

/-! ## C3: escaping round-trip -/

theorem pyReplace_single (p : Char) (rep : Str) :
    ∀ s : Str, pyReplace [p] rep s = charExpand (fun c => if c = p then rep else [c]) s := by
  intro s
  induction s with
  | nil => simp [pyReplace, charExpand]
  | cons c rest ih =>
    rw [pyReplace, charExpand]
    by_cases h : c = p
    · subst h
      simp [List.isPrefixOf, ih]
    · simp [List.isPrefixOf, h, Ne.symm h, ih]

theorem charExpand_append (f : Char → Str) (a b : Str) :
    charExpand f (a ++ b) = charExpand f a ++ charExpand f b := by
  induction a with
  | nil => simp [charExpand]
  | cons c rest ih => simp [charExpand, ih]

theorem charExpand_comp (f g : Char → Str) (s : Str) :
    charExpand g (charExpand f s) = charExpand (fun c => charExpand g (f c)) s := by
  induction s with
  | nil => simp [charExpand]
  | cons c rest ih => simp [charExpand, charExpand_append, ih]

theorem charExpand_congr (f g : Char → Str) (h : ∀ c, f c = g c) (s : Str) :
    charExpand f s = charExpand g s := by
  induction s with
  | nil => simp [charExpand]
  | cons c rest ih => simp [charExpand, h, ih]

/-- The five sequential `str.replace` calls of the string case amount to
the per-character table `escChar`. -/
theorem escapeStringBody_eq_charExpand (s : Str) :
    escapeStringBody s = charExpand escChar s := by
  unfold escapeStringBody
  rw [pyReplace_single, pyReplace_single, pyReplace_single, pyReplace_single,
    pyReplace_single, charExpand_comp, charExpand_comp, charExpand_comp, charExpand_comp]
  apply charExpand_congr
  intro c
  by_cases h1 : c = '\\'
  · subst h1; decide
  by_cases h2 : c = '\''
  · subst h2; decide
  by_cases h3 : c = '\n'
  · subst h3; decide
  by_cases h4 : c = '\r'
  · subst h4; decide
  by_cases h5 : c = '\t'
  · subst h5; decide
  simp [charExpand, escChar, h1, h2, h3, h4, h5]

theorem parseQuotedBody_roundtrip : ∀ s : Str,
    parseQuotedBody (charExpand escChar s ++ ['\'']) = some (s, []) := by
  intro s
  induction s with
  | nil => simp [charExpand, parseQuotedBody]
  | cons c rest ih =>
    rw [charExpand, List.append_assoc]
    by_cases h1 : c = '\\'
    · subst h1
      simp [escChar, parseQuotedBody, ih, decodeEsc]
    by_cases h2 : c = '\''
    · subst h2
      simp [escChar, parseQuotedBody, ih, decodeEsc]
    by_cases h3 : c = '\n'
    · subst h3
      simp [escChar, parseQuotedBody, ih, decodeEsc]
    by_cases h4 : c = '\r'
    · subst h4
      simp [escChar, parseQuotedBody, ih, decodeEsc]
    by_cases h5 : c = '\t'
    · subst h5
      simp [escChar, parseQuotedBody, ih, decodeEsc]
    rw [show escChar c = [c] by simp [escChar, h1, h2, h3, h4, h5], List.singleton_append,
      parseQuotedBody.eq_def]
    simp [h1, h2, ih]

/-- C3: for every string `s` — strings containing single quote, backslash,
newline, carriage return and tab included — `_escape_value` produces a
single-quoted literal such that re-parsing it (undoing the escapes and
stripping the surrounding quotes) returns exactly `s` with nothing left
over: no truncation, and no character sequence inside the literal
terminates the quoted literal early. -/
theorem escape_string_roundtrip (s : Str) :
    parseQuoted (escapeString s) = some (s, []) := by
  show parseQuotedBody (escapeStringBody s ++ ['\'']) = some (s, [])
  rw [escapeStringBody_eq_charExpand]
  exact parseQuotedBody_roundtrip s

/-! ## C4: placeholder substitution in `_query` -/

theorem prefix_append_split {α : Type} {a b c : List α} (h : a <+: b ++ c) :
    a <+: b ∨ b <+: a := by
  rcases le_total a.length b.length with hle | hle
  · exact Or.inl (List.prefix_of_prefix_length_le h (List.prefix_append b c) hle)
  · exact Or.inr (List.prefix_of_prefix_length_le (List.prefix_append b c) h hle)

/-- `str.replace` with a `$`-headed pattern passes a `$`-free block through
untouched. -/
theorem pyReplace_dollarFree_append (k rep s t : Str) (hs : '$' ∉ s) :
    pyReplace ('$' :: k) rep (s ++ t) = s ++ pyReplace ('$' :: k) rep t := by
  induction s with
  | nil => simp
  | cons c s' ih =>
    have hc : c ≠ '$' := fun h => hs (by simp [h])
    rw [List.cons_append, pyReplace, if_neg]
    · simp only [List.cons_append]
      rw [ih (fun hm => hs (List.mem_cons_of_mem _ hm))]
    · rintro ⟨-, hpre⟩
      rw [List.isPrefixOf_iff_prefix] at hpre
      rcases hpre with ⟨u, hu⟩
      rw [List.cons_append] at hu
      injection hu with h1 _
      exact hc h1.symm

/-- `str.replace` consumes a pattern occurrence at the head and does not
rescan the replacement. -/
theorem pyReplace_match_head (k rep t : Str) :
    pyReplace ('$' :: k) rep (('$' :: k) ++ t) = rep ++ pyReplace ('$' :: k) rep t := by
  rw [List.cons_append, pyReplace, if_pos]
  · simp
  · refine ⟨by simp, ?_⟩
    rw [List.isPrefixOf_iff_prefix, ← List.cons_append]
    exact List.prefix_append _ _

theorem mem_substKey {k : String} {e : Str} {shape : List Seg} {seg : Seg}
    (h : seg ∈ substKey k e shape) :
    seg = Seg.litSeg e ∨ (seg ∈ shape ∧ seg ≠ Seg.holeSeg k) := by
  rw [substKey, List.mem_map] at h
  obtain ⟨orig, ho, hf⟩ := h
  by_cases he : orig = Seg.holeSeg k
  · left
    rw [if_pos he] at hf
    exact hf.symm
  · right
    rw [if_neg he] at hf
    exact hf ▸ ⟨ho, he⟩

/-- One `str.replace` round on a decomposed template substitutes exactly
the slots of its own key, provided literal segments and keys are `$`-free
and no other key is prefix-related to it. -/
theorem pyReplace_flatten (k : String) (rep : Str) (shape : List Seg)
    (hlit : ∀ s, Seg.litSeg s ∈ shape → '$' ∉ s)
    (hkeys : ∀ k', Seg.holeSeg k' ∈ shape → '$' ∉ lit k')
    (hnp : ∀ k', Seg.holeSeg k' ∈ shape → k' ≠ k →
      ¬ lit k <+: lit k' ∧ ¬ lit k' <+: lit k) :
    pyReplace ('$' :: lit k) rep (flattenTemplate shape) =
      flattenTemplate (substKey k rep shape) := by
  induction shape with
  | nil => simp [flattenTemplate, substKey, pyReplace]
  | cons seg rest ih =>
    have ih' := ih (fun s hs => hlit s (List.mem_cons_of_mem _ hs))
      (fun k' h => hkeys k' (List.mem_cons_of_mem _ h))
      (fun k' h hne => hnp k' (List.mem_cons_of_mem _ h) hne)
    cases seg with
    | litSeg s =>
      rw [flattenTemplate,
        pyReplace_dollarFree_append _ _ _ _ (hlit s (List.mem_cons_self _ _)), ih']
      simp [substKey, flattenTemplate]
    | holeSeg k' =>
      by_cases hk : k' = k
      · subst hk
        rw [flattenTemplate, pyReplace_match_head, ih']
        simp [substKey, flattenTemplate]
      · have hknp := hnp k' (List.mem_cons_self _ _) hk
        rw [flattenTemplate, List.cons_append, pyReplace, if_neg]
        · rw [pyReplace_dollarFree_append _ _ _ _ (hkeys k' (List.mem_cons_self _ _)), ih']
          simp [substKey, flattenTemplate, hk]
        · rintro ⟨-, hpre⟩
          rw [List.isPrefixOf_iff_prefix] at hpre
          rcases hpre with ⟨u, hu⟩
          rw [List.cons_append] at hu
          injection hu with _ h2
          rcases prefix_append_split ⟨u, h2⟩ with h | h
          · exact hknp.1 h
          · exact hknp.2 h

theorem substKey_cons (k : String) (e : Str) (seg : Seg) (rest : List Seg) :
    substKey k e (seg :: rest) =
      (if seg = Seg.holeSeg k then Seg.litSeg e else seg) :: substKey k e rest := rfl

theorem substTemplate_substKey (g : String → Str) (k : String) (e : Str)
    (shape : List Seg) :
    substTemplate g (substKey k e shape) =
      substTemplate (fun k' => if k' = k then e else g k') shape := by
  induction shape with
  | nil => rfl
  | cons seg rest ih =>
    cases seg with
    | litSeg s =>
      rw [substKey_cons, if_neg (by simp)]
      simp only [substTemplate]
      rw [ih]
    | holeSeg k' =>
      by_cases hk : k' = k
      · subst hk
        rw [substKey_cons, if_pos rfl]
        simp only [substTemplate]
        rw [ih]
        simp
      · rw [substKey_cons, if_neg (by simp [hk])]
        simp only [substTemplate]
        rw [ih, if_neg hk]

theorem substTemplate_congr (f g : String → Str) (shape : List Seg)
    (h : ∀ k, Seg.holeSeg k ∈ shape → f k = g k) :
    substTemplate f shape = substTemplate g shape := by
  induction shape with
  | nil => simp [substTemplate]
  | cons seg rest ih =>
    have ih' := ih (fun k hk => h k (List.mem_cons_of_mem _ hk))
    cases seg with
    | litSeg s => simp [substTemplate, ih']
    | holeSeg k => simp [substTemplate, ih', h k (List.mem_cons_self _ _)]

theorem substTemplate_no_holes (f : String → Str) (shape : List Seg)
    (h : ∀ k, ¬ Seg.holeSeg k ∈ shape) :
    substTemplate f shape = flattenTemplate shape := by
  induction shape with
  | nil => simp [substTemplate, flattenTemplate]
  | cons seg rest ih =>
    have ih' := ih (fun k hk => h k (List.mem_cons_of_mem _ hk))
    cases seg with
    | litSeg s => simp [substTemplate, flattenTemplate, ih']
    | holeSeg k => exact absurd (List.mem_cons_self _ _) (h k)

theorem escLookup_cons (k : String) (v : Value) (rest : List (String × Value))
    (k' : String) :
    escLookup ((k, v) :: rest) k' =
      if k = k' then escape_value v else escLookup rest k' := by
  unfold escLookup
  by_cases h : k = k'
  · rw [List.find?_cons_of_pos _ (by simp [h]), if_pos h]
  · rw [List.find?_cons_of_neg _ (by simp [h]), if_neg h]

/-- Core substitution lemma: the sequential `str.replace` fold of `_query`
equals the replace-each-placeholder-exactly-once substitution, provided no
escaped parameter value contains a `$` character and no two distinct keys
are prefix-related. -/
theorem processedQuery_subst_core :
    ∀ (params : List (String × Value)) (shape : List Seg),
    (∀ s, Seg.litSeg s ∈ shape → '$' ∉ s) →
    (∀ k, Seg.holeSeg k ∈ shape → ∃ v, (k, v) ∈ params) →
    (∀ kv ∈ params, '$' ∉ lit kv.1) →
    (∀ kv ∈ params, ∀ kv' ∈ params, kv.1 ≠ kv'.1 → ¬ lit kv.1 <+: lit kv'.1) →
    (∀ kv ∈ params, '$' ∉ escape_value kv.2) →
    processedQuery (flattenTemplate shape) params =
      substTemplate (escLookup params) shape := by
  intro params
  induction params with
  | nil =>
    intro shape _ hhole _ _ _
    have : ∀ k, ¬ Seg.holeSeg k ∈ shape := by
      intro k hk
      rcases hhole k hk with ⟨v, hv⟩
      simp at hv
    rw [substTemplate_no_holes _ _ this]
    rfl
  | cons kv rest ih =>
    obtain ⟨k, v⟩ := kv
    intro shape hlit hhole hkey hpre hval
    have hstep : processedQuery (flattenTemplate shape) ((k, v) :: rest) =
        processedQuery
          (pyReplace ('$' :: lit k) (escape_value v) (flattenTemplate shape)) rest := rfl
    have hkeys' : ∀ k', Seg.holeSeg k' ∈ shape → '$' ∉ lit k' := by
      intro k' h
      rcases hhole k' h with ⟨v', hv'⟩
      exact hkey (k', v') hv'
    rw [hstep, pyReplace_flatten k (escape_value v) shape hlit hkeys'
      (fun k' h hne => by
        rcases hhole k' h with ⟨v', hv'⟩
        exact ⟨hpre (k, v) (List.mem_cons_self _ _) (k', v') hv' (fun he => hne he.symm),
          hpre (k', v') hv' (k, v) (List.mem_cons_self _ _) hne⟩)]
    rw [ih (substKey k (escape_value v) shape)
      (fun s hs => by
        rcases mem_substKey hs with h | ⟨h, -⟩
        · cases h
          exact hval (k, v) (List.mem_cons_self _ _)
        · exact hlit s h)
      (fun k' hk' => by
        rcases mem_substKey hk' with h | ⟨h, hne⟩
        · cases h
        · rcases hhole k' h with ⟨v', hv'⟩
          rcases List.mem_cons.mp hv' with he | hr
          · exact absurd (by injection he with h1 _; exact congrArg Seg.holeSeg h1) hne
          · exact ⟨v', hr⟩)
      (fun kv h => hkey kv (List.mem_cons_of_mem _ h))
      (fun kv h kv' h' => hpre kv (List.mem_cons_of_mem _ h) kv' (List.mem_cons_of_mem _ h'))
      (fun kv h => hval kv (List.mem_cons_of_mem _ h))]
    rw [substTemplate_substKey]
    apply substTemplate_congr
    intro k'' _
    rw [escLookup_cons]
    by_cases h : k'' = k
    · subst h
      simp
    · rw [if_neg h, if_neg (fun he => h he.symm)]

/-- `str.replace` with a `$`-headed pattern is the identity on `$`-free
text. -/
theorem pyReplace_dollarFree (k rep s : Str) (hs : '$' ∉ s) :
    pyReplace ('$' :: k) rep s = s := by
  have h := pyReplace_dollarFree_append k rep s [] hs
  rw [List.append_nil] at h
  rw [h, pyReplace, List.append_nil]

theorem mem_charExpand {c : Char} {f : Char → Str} {s : Str}
    (h : c ∈ charExpand f s) : ∃ x ∈ s, c ∈ f x := by
  induction s with
  | nil => simp [charExpand] at h
  | cons a rest ih =>
    rcases List.mem_append.mp h with h | h
    · exact ⟨a, List.mem_cons_self _ _, h⟩
    · rcases ih h with ⟨x, hx, hcx⟩
      exact ⟨x, List.mem_cons_of_mem _ hx, hcx⟩

/-- Escaping a `$`-free string yields a `$`-free literal (`_escape_value`
does not escape, and cannot introduce, a `$`). -/
theorem dollar_not_mem_escapeString (s : Str) (hs : '$' ∉ s) :
    '$' ∉ escapeString s := by
  unfold escapeString
  rw [escapeStringBody_eq_charExpand]
  intro h
  rcases List.mem_cons.mp h with h | h
  · exact absurd h (by decide)
  rcases List.mem_append.mp h with h | h
  · rcases mem_charExpand h with ⟨x, hx, hcx⟩
    unfold escChar at hcx
    split_ifs at hcx with h1 h2 h3 h4 h5
    · exact absurd hcx (by decide)
    · exact absurd hcx (by decide)
    · exact absurd hcx (by decide)
    · exact absurd hcx (by decide)
    · exact absurd hcx (by decide)
    · rcases List.mem_singleton.mp hcx with h
      exact hs (h ▸ hx)
  · exact absurd h (by decide)

/-- `escapeString` unfolded to its per-character form (used to evaluate
escaped literals in closed statements). -/
theorem escapeString_eval (s : Str) :
    escapeString s = '\'' :: charExpand escChar s ++ ['\''] := by
  unfold escapeString
  rw [escapeStringBody_eq_charExpand]

/-! ## C1: `create_relationship` does not validate `rel_type` -/

/-- What `create_relationship` actually executes when the backend is
available: the query with `rel_type` inlined verbatim between `[r:` and
`]`, with the `source`/`target` placeholders replaced by the escaped ids.
(The `$`-freeness hypotheses keep the two `str.replace` rounds away from
the inlined pieces.) -/
theorem create_relationship_exec (conn : Conn) (s t rt : String)
    (props : List (String × Value))
    (hconn : conn.hasClient = true ∧ conn.available = true)
    (hrt : '$' ∉ lit rt) (hs : '$' ∉ lit s) (ht : '$' ∉ lit t)
    (hp : '$' ∉ propsClause props) :
    create_relationship conn s t rt props =
      some (lit "\n        MATCH (c1:Chunk \x7bid: " ++
        (escapeString (lit s) ++ (lit "\x7d)\n        MATCH (c2:Chunk \x7bid: " ++
        (escapeString (lit t) ++ (lit "\x7d)\n        MERGE (c1)-[r:" ++
        (lit rt ++ (lit "]->(c2)\n        " ++
        (propsClause props ++ lit "\n        RETURN r\n        ")))))))) := by
  unfold create_relationship queryCommand
  rw [if_pos ⟨hconn.1, hconn.2⟩]
  congr 1
  have hdecomp : create_relationship_query rt props =
      flattenTemplate
        [Seg.litSeg (lit "\n        MATCH (c1:Chunk \x7bid: "),
         Seg.holeSeg "source",
         Seg.litSeg (lit "\x7d)\n        MATCH (c2:Chunk \x7bid: "),
         Seg.holeSeg "target",
         Seg.litSeg (lit "\x7d)\n        MERGE (c1)-[r:" ++
           (lit rt ++ (lit "]->(c2)\n        " ++
             (propsClause props ++ lit "\n        RETURN r\n        "))))] := by
    unfold create_relationship_query
    rw [show (lit "\n        MATCH (c1:Chunk \x7bid: $source\x7d)\n        MATCH (c2:Chunk \x7bid: $target\x7d)\n        MERGE (c1)-[r:" : Str) =
      lit "\n        MATCH (c1:Chunk \x7bid: " ++ (('$' :: lit "source") ++
        (lit "\x7d)\n        MATCH (c2:Chunk \x7bid: " ++ (('$' :: lit "target") ++
          lit "\x7d)\n        MERGE (c1)-[r:"))) from by decide]
    simp [flattenTemplate, List.append_assoc]
  rw [hdecomp, processedQuery_subst_core _ _
    (by
      intro x hx
      simp only [List.mem_cons, List.not_mem_nil, or_false] at hx
      rcases hx with h | h | h | h | h
      · cases h
        decide
      · cases h
      · cases h
        decide
      · cases h
      · cases h
        intro hd
        rcases List.mem_append.mp hd with hd | hd
        · exact absurd hd (by decide)
        rcases List.mem_append.mp hd with hd | hd
        · exact hrt hd
        rcases List.mem_append.mp hd with hd | hd
        · exact absurd hd (by decide)
        rcases List.mem_append.mp hd with hd | hd
        · exact hp hd
        · exact absurd hd (by decide))
    (by
      intro k hk
      simp only [List.mem_cons, List.not_mem_nil, or_false] at hk
      rcases hk with h | h | h | h | h
      · cases h
      · cases h
        exact ⟨Value.vStr (lit s), by simp⟩
      · cases h
      · cases h
        exact ⟨Value.vStr (lit t), by simp⟩
      · cases h)
    (by
      intro kv hkv
      simp only [List.mem_cons, List.not_mem_nil, or_false] at hkv
      rcases hkv with rfl | rfl
      · show '$' ∉ lit "source"
        decide
      · show '$' ∉ lit "target"
        decide)
    (by
      intro kv hkv kv' hkv'
      simp only [List.mem_cons, List.not_mem_nil, or_false] at hkv hkv'
      rcases hkv with rfl | rfl <;> rcases hkv' with rfl | rfl
      · intro hne
        exact absurd rfl hne
      · intro _
        show ¬ lit "source" <+: lit "target"
        decide
      · intro _
        show ¬ lit "target" <+: lit "source"
        decide
      · intro hne
        exact absurd rfl hne)
    (by
      intro kv hkv
      simp only [List.mem_cons, List.not_mem_nil, or_false] at hkv
      rcases hkv with rfl | rfl
      · exact dollar_not_mem_escapeString _ hs
      · exact dollar_not_mem_escapeString _ ht)]
  simp [substTemplate, escLookup_cons, escape_value, List.append_assoc]

/-- C4 (amended): each parameter value is escaped before its placeholder is
substituted, and the constructed query equals the template with each
placeholder replaced exactly once by that parameter's escaped value —
provided no escaped parameter value contains a `$` character and no two
distinct parameter keys are prefix-related.  (The unconditional claim is
false: see `processedQuery_rewrites_inside_values` — an escaped value
containing `$otherkey` is rewritten by the later substitution round.) -/
theorem processedQuery_substitutes_once (params : List (String × Value))
    (shape : List Seg)
    (hlit : ∀ s, Seg.litSeg s ∈ shape → '$' ∉ s)
    (hhole : ∀ k, Seg.holeSeg k ∈ shape → ∃ v, (k, v) ∈ params)
    (hkey : ∀ kv ∈ params, '$' ∉ lit kv.1)
    (hpre : ∀ kv ∈ params, ∀ kv' ∈ params, kv.1 ≠ kv'.1 → ¬ lit kv.1 <+: lit kv'.1)
    (hval : ∀ kv ∈ params, '$' ∉ escape_value kv.2) :
    processedQuery (flattenTemplate shape) params =
      substTemplate (escLookup params) shape :=
  processedQuery_subst_core params shape hlit hhole hkey hpre hval

theorem processedQuery_substitutes_once_witness :
    processedQuery (flattenTemplate [Seg.litSeg (lit "RETURN "), Seg.holeSeg "x"])
        [("x", Value.vBool true)] =
      substTemplate (escLookup [("x", Value.vBool true)])
        [Seg.litSeg (lit "RETURN "), Seg.holeSeg "x"] :=
  processedQuery_substitutes_once [("x", Value.vBool true)]
    [Seg.litSeg (lit "RETURN "), Seg.holeSeg "x"]
    (by
      intro s hs
      simp only [List.mem_cons, List.not_mem_nil, or_false] at hs
      rcases hs with h | h
      · cases h
        decide
      · cases h)
    (by
      intro k hk
      simp only [List.mem_cons, List.not_mem_nil, or_false] at hk
      rcases hk with h | h
      · cases h
      · cases h
        exact ⟨Value.vBool true, by simp⟩)
    (by
      intro kv hkv
      simp only [List.mem_cons, List.not_mem_nil, or_false] at hkv
      subst hkv
      decide)
    (by
      intro kv hkv kv' hkv'
      simp only [List.mem_cons, List.not_mem_nil, or_false] at hkv hkv'
      subst hkv
      subst hkv'
      intro hne
      exact absurd rfl hne)
    (by
      intro kv hkv
      simp only [List.mem_cons, List.not_mem_nil, or_false] at hkv
      subst hkv
      decide)

/-- C4 is false as stated: with template `RETURN $a` and parameter map
`a := "$b", b := "x"` (in that order), the code substitutes `$a` first,
then the `$b` round rewrites text inside the already-substituted escaped
value `'$b'`, giving `RETURN ''x''` instead of the claimed `RETURN '$b'`. -/
theorem processedQuery_rewrites_inside_values :
    processedQuery (flattenTemplate [Seg.litSeg (lit "RETURN "), Seg.holeSeg "a"])
        [("a", Value.vStr (lit "$b")), ("b", Value.vStr (lit "x"))] =
      lit "RETURN ''x''" ∧
    substTemplate (escLookup [("a", Value.vStr (lit "$b")), ("b", Value.vStr (lit "x"))])
        [Seg.litSeg (lit "RETURN "), Seg.holeSeg "a"] =
      lit "RETURN '$b'" ∧
    (lit "RETURN ''x''" : Str) ≠ lit "RETURN '$b'" := by
  have h1 : escape_value (Value.vStr (lit "$b")) = lit "'$b'" := by
    show escapeString (lit "$b") = lit "'$b'"
    rw [escapeString_eval]
    decide
  have h2 : escape_value (Value.vStr (lit "x")) = lit "'x'" := by
    show escapeString (lit "x") = lit "'x'"
    rw [escapeString_eval]
    decide
  refine ⟨?_, ?_, by decide⟩
  · show pyReplace ('$' :: lit "b") (escape_value (Value.vStr (lit "x")))
        (pyReplace ('$' :: lit "a") (escape_value (Value.vStr (lit "$b")))
          (flattenTemplate [Seg.litSeg (lit "RETURN "), Seg.holeSeg "a"])) =
      lit "RETURN ''x''"
    rw [h1, h2,
      show flattenTemplate [Seg.litSeg (lit "RETURN "), Seg.holeSeg "a"] =
        lit "RETURN " ++ (('$' :: lit "a") ++ []) from by decide,
      pyReplace_dollarFree_append _ _ _ _ (by decide),
      pyReplace_match_head,
      show pyReplace ('$' :: lit "a") (lit "'$b'") [] = [] from by rw [pyReplace],
      show (lit "RETURN " ++ (lit "'$b'" ++ ([] : Str)) : Str) =
        lit "RETURN '" ++ (('$' :: lit "b") ++ lit "'") from by decide,
      pyReplace_dollarFree_append _ _ _ _ (by decide),
      pyReplace_match_head,
      pyReplace_dollarFree _ _ _ (by decide)]
    decide
  · simp only [substTemplate]
    rw [escLookup_cons, if_pos rfl, h1]
    decide

/-- C1 (amended): `create_relationship` performs no validation of
`rel_type`: for every `rel_type` — allow-listed or not — whenever the
backend is available, the method executes a query with `rel_type` inlined
verbatim in the query text.  (The `$`-freeness hypotheses only keep the
placeholder-substitution rounds away from the inlined pieces.) -/
theorem create_relationship_inlines_rel_type (conn : Conn) (s t rt : String)
    (props : List (String × Value))
    (hconn : conn.hasClient = true ∧ conn.available = true)
    (hrt : '$' ∉ lit rt) (hs : '$' ∉ lit s) (ht : '$' ∉ lit t)
    (hp : '$' ∉ propsClause props) :
    ∃ pre post : Str,
      create_relationship conn s t rt props = some (pre ++ lit rt ++ post) := by
  refine ⟨lit "\n        MATCH (c1:Chunk \x7bid: " ++ (escapeString (lit s) ++
    (lit "\x7d)\n        MATCH (c2:Chunk \x7bid: " ++ (escapeString (lit t) ++
      lit "\x7d)\n        MERGE (c1)-[r:"))),
    lit "]->(c2)\n        " ++ (propsClause props ++ lit "\n        RETURN r\n        "), ?_⟩
  rw [create_relationship_exec conn s t rt props hconn hrt hs ht hp]
  simp [List.append_assoc]

theorem create_relationship_inlines_rel_type_witness :
    ∃ pre post : Str,
      create_relationship ⟨true, true⟩ "a" "b" "FOO" [] =
        some (pre ++ lit "FOO" ++ post) :=
  create_relationship_inlines_rel_type ⟨true, true⟩ "a" "b" "FOO" [] ⟨rfl, rfl⟩
    (by decide) (by decide) (by decide) (by decide)

/-- C1 is false as stated: `rel_type = "EVIL"` is outside the allow-list,
yet the operation is not rejected — the query with `EVIL` inlined is
executed. -/
theorem create_relationship_no_validation_cex :
    ("EVIL" ∉ specAllowedRelTypes) ∧
    create_relationship ⟨true, true⟩ "a" "b" "EVIL" [] =
      some (lit "\n        MATCH (c1:Chunk \x7bid: 'a'\x7d)\n        MATCH (c2:Chunk \x7bid: 'b'\x7d)\n        MERGE (c1)-[r:" ++
        lit "EVIL" ++ lit "]->(c2)\n        \n        RETURN r\n        ") := by
  refine ⟨by decide, ?_⟩
  rw [create_relationship_exec ⟨true, true⟩ "a" "b" "EVIL" [] ⟨rfl, rfl⟩
    (by decide) (by decide) (by decide) (by decide)]
  rw [escapeString_eval, escapeString_eval]
  decide

/-! ## C10: `update_chunk_node` never touches `id` -/

/-- C10: `update_chunk_node` never modifies the `id` property: every
generated `SET` clause comes from a non-`id` update key, and when every
update key is `"id"` (or the update map is empty) no query is issued at
all, leaving the graph unchanged. -/
theorem update_chunk_node_preserves_id (conn : Conn) (chunk_id : String)
    (updates : List (String × Value)) :
    ((∀ kv ∈ updates, kv.1 = "id") → update_chunk_node conn chunk_id updates = none) ∧
    (∀ clause ∈ update_set_clauses updates,
      ∃ kv ∈ updates, kv.1 ≠ "id" ∧
        clause = lit "c." ++ lit kv.1 ++ lit " = $" ++ lit kv.1) := by
  constructor
  · intro h
    have hnil : update_set_clauses updates = [] := by
      unfold update_set_clauses
      rw [List.filter_eq_nil_iff.mpr (by
        intro kv hkv
        simp [h kv hkv])]
      rfl
    unfold update_chunk_node
    rw [if_pos hnil]
  · intro clause hc
    unfold update_set_clauses at hc
    rw [List.mem_map] at hc
    obtain ⟨kv, hkv, hf⟩ := hc
    rw [List.mem_filter] at hkv
    exact ⟨kv, hkv.1, by simpa using hkv.2, hf.symm⟩

theorem update_chunk_node_preserves_id_witness :
    update_chunk_node ⟨true, true⟩ "c1" [("id", Value.vStr (lit "zzz"))] = none :=
  (update_chunk_node_preserves_id ⟨true, true⟩ "c1"
      [("id", Value.vStr (lit "zzz"))]).1
    (by
      intro kv hkv
      simp only [List.mem_cons, List.not_mem_nil, or_false] at hkv
      subst hkv
      rfl)

/-! ## C8: the type-code table of `_parse_cell_value` -/

theorem parseElems_eq_mapM (l : List Value) :
    parseElems l =
      l.mapM (fun e => if isVList e then parse_cell_value e else pure e) := by
  induction l with
  | nil => rfl
  | cons e es ih =>
    simp only [parseElems, List.mapM_cons]
    cases e <;> simp [isVList, ih] <;> rfl

/-- C8 (amended): `_parse_cell_value` decodes per the type-code table —
code 1 to null; codes 2, 3, 4, 5 and 9 to the value as-is; code 7 (EDGE)
to the 5th element of its ≥5-tuple and code 8 (NODE) to the 3rd element of
its ≥3-tuple, shorter or non-list values passing through unchanged;
malformed or too-short cells pass through unchanged; code 6 (ARRAY)
decodes each list-shaped element recursively — but decoding is not total:
an ARRAY cell whose value is not iterable (not a list or string) raises a
`TypeError` instead of returning the value unchanged. -/
theorem parse_cell_value_table :
    (∀ v, parse_cell_value (.vList [.vInt 1, v]) = .ok .vNone) ∧
    (∀ n : Int, n ∈ ([2, 3, 4, 5, 9] : List Int) →
      ∀ v, parse_cell_value (.vList [.vInt n, v]) = .ok v) ∧
    (∀ l : List Value, 5 ≤ l.length →
      parse_cell_value (.vList [.vInt 7, .vList l]) = .ok (l.getD 4 .vNone)) ∧
    (∀ v, isVList v = false → parse_cell_value (.vList [.vInt 7, v]) = .ok v) ∧
    (∀ l : List Value, l.length < 5 →
      parse_cell_value (.vList [.vInt 7, .vList l]) = .ok (.vList l)) ∧
    (∀ l : List Value, 3 ≤ l.length →
      parse_cell_value (.vList [.vInt 8, .vList l]) = .ok (l.getD 2 .vNone)) ∧
    (∀ v, isVList v = false → parse_cell_value (.vList [.vInt 8, v]) = .ok v) ∧
    (∀ l : List Value, l.length < 3 →
      parse_cell_value (.vList [.vInt 8, .vList l]) = .ok (.vList l)) ∧
    (∀ v, isVList v = false → parse_cell_value v = .ok v) ∧
    (∀ l : List Value, l.length < 2 → parse_cell_value (.vList l) = .ok (.vList l)) ∧
    (∀ l : List Value, parse_cell_value (.vList [.vInt 6, .vList l]) =
      (l.mapM (fun e => if isVList e then parse_cell_value e else pure e)).map
        Value.vList) ∧
    (∀ v, isVList v = false → isVStr v = false →
      parse_cell_value (.vList [.vInt 6, v]) = .error ()) := by
  refine ⟨fun v => rfl, ?_, ?_, ?_, ?_, ?_, ?_, ?_, ?_, ?_, ?_, ?_⟩
  · intro n hn v
    simp only [List.mem_cons, List.not_mem_nil, or_false] at hn
    rcases hn with rfl | rfl | rfl | rfl | rfl <;> rfl
  · intro l hl
    show Except.ok (if 5 ≤ l.length then l.getD 4 Value.vNone else Value.vList l) =
      Except.ok (l.getD 4 Value.vNone)
    rw [if_pos hl]
  · intro v hv
    cases v <;> first | rfl | simp [isVList] at hv
  · intro l hl
    show Except.ok (if 5 ≤ l.length then l.getD 4 Value.vNone else Value.vList l) =
      Except.ok (Value.vList l)
    rw [if_neg (by omega)]
  · intro l hl
    show Except.ok (if 3 ≤ l.length then l.getD 2 Value.vNone else Value.vList l) =
      Except.ok (l.getD 2 Value.vNone)
    rw [if_pos hl]
  · intro v hv
    cases v <;> first | rfl | simp [isVList] at hv
  · intro l hl
    show Except.ok (if 3 ≤ l.length then l.getD 2 Value.vNone else Value.vList l) =
      Except.ok (Value.vList l)
    rw [if_neg (by omega)]
  · intro v hv
    cases v <;> first | rfl | simp [isVList] at hv
  · intro l hl
    rcases l with _ | ⟨x, _ | ⟨y, rest⟩⟩
    · rfl
    · rfl
    · exact absurd hl (by simp)
  · intro l
    show (parseElems l).map Value.vList = _
    rw [parseElems_eq_mapM]
  · intro v h1 h2
    cases v
    · rfl
    · simp [isVStr] at h2
    · rfl
    · rfl
    · rfl
    · simp [isVList] at h1

/-- C8 is false as stated: `[6, 42]` is a well-formed `[type_code, value]`
cell, but the ARRAY branch iterates its value, so decoding an integer
value raises a `TypeError` instead of returning the raw value unchanged. -/
theorem parse_cell_value_raises_cex :
    parse_cell_value (Value.vList [Value.vInt 6, Value.vInt 42]) = .error () := rfl

theorem parse_cell_value_table_witness :
    parse_cell_value (Value.vList [Value.vInt 2, Value.vStr (lit "hi")]) =
      .ok (Value.vStr (lit "hi")) ∧
    parse_cell_value (Value.vList [Value.vInt 7,
        Value.vList [Value.vInt 0, Value.vInt 1, Value.vInt 2, Value.vInt 3,
          Value.vStr (lit "props")]]) =
      .ok (Value.vStr (lit "props")) :=
  ⟨parse_cell_value_table.2.1 2 (by simp) (Value.vStr (lit "hi")),
   by
    have h := parse_cell_value_table.2.2.1
      [Value.vInt 0, Value.vInt 1, Value.vInt 2, Value.vInt 3, Value.vStr (lit "props")]
      (by simp)
    simpa using h⟩

/-! ## C9: IMPLEMENTS detection -/

theorem pairRels_filter_impl (c1 c2 : Chunk) :
    (pairRels c1 c2).filter (fun r => r.2.2 == "IMPLEMENTS") =
      (if c1.chunk_type = "feature" ∧ c2.chunk_type = "requirement" ∧
          2 ≤ ((wordSet c1.text \ stop_words_ext) ∩
                (wordSet c2.text \ stop_words_ext)).card
       then [(c1.id, c2.id, "IMPLEMENTS")] else []) := by
  unfold pairRels _has_implementation
  cases hdep : _has_dependency c1.text c2 <;>
    cases href : _has_reference c1.text c2 <;>
    by_cases h1a : c1.chunk_type = "feature" <;>
    by_cases h1b : c2.chunk_type = "requirement" <;>
    by_cases h2 : 2 ≤ ((wordSet c2.text \ stop_words_ext) ∩
      (wordSet c1.text \ stop_words_ext)).card <;>
    simp [h1a, h1b, h2, List.filter_append, Finset.inter_comm]

/-- C9: the detector evaluates IMPLEMENTS exactly for ordered pairs
`(i, j)`, `i < j`, with `type i = feature` and `type j = requirement`,
emitting `(i, j, IMPLEMENTS)` iff the lowercased tokenized word sets of
the two texts, minus the stop-word list extended with `shall`/`must`/
`will`, share at least 2 words; in particular chunk A (feature,
"Implements OAuth2 login") and chunk B (requirement, "System shall
support OAuth2 login") yield `(A, B, IMPLEMENTS)`. -/
theorem detect_relationships_implements_spec :
    (∀ chunks, (detect_relationships chunks).filter (fun r => r.2.2 == "IMPLEMENTS") =
      specImplEdges chunks) ∧
    ("A", "B", "IMPLEMENTS") ∈ detect_relationships
      [⟨"A", "feature", lit "Implements OAuth2 login", lit ""⟩,
       ⟨"B", "requirement", lit "System shall support OAuth2 login", lit ""⟩] := by
  constructor
  · intro chunks
    induction chunks with
    | nil => rfl
    | cons c1 rest ih =>
      show List.filter _ ((rest.map (pairRels c1)).flatten ++ detect_relationships rest) = _
      rw [List.filter_append, ih, List.filter_flatten, List.map_map]
      show (rest.map (fun c2 => (pairRels c1 c2).filter _)).flatten ++ _ = _
      simp only [pairRels_filter_impl]
      rfl
  · decide

/-! ## C2: isolation in the per-chunk write path -/

/-- C2 (amended): only the relational-store write is wrapped: as long as
the vector and graph writes succeed, a failing relational write is caught
and logged (`dbCaught`) and every write of every chunk is still attempted
— the loop runs to completion with the full event trace.  (A vector or
graph write failure instead propagates and aborts the loop: see
`process_prd_vector_failure_aborts_cex`.) -/
theorem process_prd_db_write_isolated (dbEnabled graphEnabled : Bool)
    (vf df gnf glf : String → Bool) (chunks : List String)
    (hv : ∀ c ∈ chunks, vf c = false)
    (hg : ∀ c ∈ chunks, gnf c = false ∧ glf c = false) :
    process_chunks dbEnabled graphEnabled vf df gnf glf chunks =
      (chunks.flatMap (perChunkEvents dbEnabled graphEnabled df), none) := by
  induction chunks with
  | nil => rfl
  | cons c rest ih =>
    have hvc := hv c (List.mem_cons_self _ _)
    have hgc := hg c (List.mem_cons_self _ _)
    have ihr := ih (fun x hx => hv x (List.mem_cons_of_mem _ hx))
      (fun x hx => hg x (List.mem_cons_of_mem _ hx))
    cases graphEnabled
    · simp only [process_chunks, hvc, Bool.false_eq_true, if_false, ihr]
      simp [perChunkEvents, List.append_assoc]
    · simp only [process_chunks, hvc, hgc.1, hgc.2, Bool.false_eq_true, if_false, ihr]
      simp [perChunkEvents, List.append_assoc]

theorem process_prd_db_write_isolated_witness :
    process_chunks true true (fun _ => false) (fun c => c == "x") (fun _ => false)
      (fun _ => false) ["x", "y"] =
      ([WEvent.vecWrite "x", WEvent.dbWrite "x", WEvent.dbCaught "x",
        WEvent.graphNode "x", WEvent.graphLink "x",
        WEvent.vecWrite "y", WEvent.dbWrite "y",
        WEvent.graphNode "y", WEvent.graphLink "y"], none) := by
  rw [process_prd_db_write_isolated true true (fun _ => false) (fun c => c == "x")
    (fun _ => false) (fun _ => false) ["x", "y"]
    (fun c _ => rfl) (fun c _ => ⟨rfl, rfl⟩)]
  rfl

/-- C2 is false as stated: a vector-index failure on the first chunk is
not caught — the relational and graph writes for that chunk, and all
writes for the remaining chunks, are never attempted, and the exception
propagates out of the loop. -/
theorem process_prd_vector_failure_aborts_cex :
    process_chunks true true (fun c => c == "c1") (fun _ => false) (fun _ => false)
      (fun _ => false) ["c1", "c2"] = ([WEvent.vecWrite "c1"], some ()) ∧
    WEvent.dbWrite "c1" ∉
      (process_chunks true true (fun c => c == "c1") (fun _ => false) (fun _ => false)
        (fun _ => false) ["c1", "c2"]).1 ∧
    WEvent.vecWrite "c2" ∉
      (process_chunks true true (fun c => c == "c1") (fun _ => false) (fun _ => false)
        (fun _ => false) ["c1", "c2"]).1 := by
  refine ⟨rfl, ?_, ?_⟩ <;> decide

/-! ## C5: degraded mode returns documented empty values -/

theorem runQuery_degraded {α : Type} (conn : Conn) (g : GraphState)
    (denote : GraphState → List α)
    (hdeg : conn.hasClient = false ∨ conn.available = false) :
    runQuery conn g denote = [] := by
  unfold runQuery
  rw [if_neg]
  rintro ⟨h1, h2⟩
  rcases hdeg with h | h
  · rw [h] at h1
    cases h1
  · rw [h] at h2
    cases h2

theorem pyRound2_zero : pyRound2 0 = 0 := by
  unfold pyRound2 roundHalfEven
  norm_num

/-- C5: with the graph backend unavailable (no client handle, or the
FalkorDB module probe failed), every query-issuing read operation of the
graph service returns its documented empty value — empty lists, the
zeroed coverage dictionary, `none` for a missing PRD, the empty
relationship/traceability aggregates — and, being total here, never
raises. -/
theorem degraded_ops_return_empty {α β γ : Type} (conn : Conn) (g : GraphState)
    (chunk_id prd_id direction : String) (depth max_results : Nat)
    (dTests : GraphState → List α) (dPrds : GraphState → List β)
    (dStats : GraphState → List γ)
    (hdeg : conn.hasClient = false ∨ conn.available = false) :
    get_tests_for_requirement conn g chunk_id = [] ∧
    get_documentation_for_requirement conn g chunk_id = [] ∧
    get_designs_for_requirement conn g chunk_id = [] ∧
    get_all_tests_for_prd conn g dTests prd_id = [] ∧
    get_test_coverage conn g prd_id = ⟨prd_id, 0, 0, 0, 0, 0⟩ ∧
    get_documentation_coverage conn g prd_id = ⟨prd_id, 0, 0, 0, 0, 0⟩ ∧
    get_dependencies conn g chunk_id depth direction = [] ∧
    get_all_relationships conn g chunk_id = ⟨[], [], [], []⟩ ∧
    find_related_chunks conn g chunk_id max_results = [] ∧
    get_all_prds conn g dPrds = [] ∧
    get_prd_details conn g prd_id = none ∧
    get_graph_stats conn g dStats = none ∧
    get_full_traceability conn g chunk_id depth =
      ⟨chunk_id, none, [], [], [], [], [], []⟩ := by
  have hq : ∀ (δ : Type) (denote : GraphState → List δ),
      runQuery conn g denote = [] :=
    fun δ denote => runQuery_degraded conn g denote hdeg
  refine ⟨?_, ?_, ?_, ?_, ?_, ?_, ?_, ?_, ?_, ?_, ?_, ?_, ?_⟩
  · exact hq _ _
  · exact hq _ _
  · exact hq _ _
  · exact hq _ _
  · unfold get_test_coverage
    rw [hq, hq, hq]
    simp [pyRound2_zero]
  · unfold get_documentation_coverage
    rw [hq, hq, hq]
    simp [pyRound2_zero]
  · exact hq _ _
  · unfold get_all_relationships
    rw [hq, hq, hq, hq]
    rfl
  · exact hq _ _
  · exact hq _ _
  · unfold get_prd_details
    rw [hq]
  · unfold get_graph_stats
    rw [hq]
    rfl
  · unfold get_full_traceability get_tests_for_requirement
      get_documentation_for_requirement get_designs_for_requirement
    rw [hq, hq, hq, hq, hq, hq, hq]
    rfl

theorem degraded_ops_return_empty_witness :
    get_tests_for_requirement ⟨true, false⟩ ⟨[], [], [], []⟩ "c" = [] ∧
    get_documentation_for_requirement ⟨true, false⟩ ⟨[], [], [], []⟩ "c" = [] ∧
    get_designs_for_requirement ⟨true, false⟩ ⟨[], [], [], []⟩ "c" = [] ∧
    get_all_tests_for_prd ⟨true, false⟩ ⟨[], [], [], []⟩ (fun _ => ([] : List Nat)) "p" = [] ∧
    get_test_coverage ⟨true, false⟩ ⟨[], [], [], []⟩ "p" = ⟨"p", 0, 0, 0, 0, 0⟩ ∧
    get_documentation_coverage ⟨true, false⟩ ⟨[], [], [], []⟩ "p" = ⟨"p", 0, 0, 0, 0, 0⟩ ∧
    get_dependencies ⟨true, false⟩ ⟨[], [], [], []⟩ "c" 3 "outgoing" = [] ∧
    get_all_relationships ⟨true, false⟩ ⟨[], [], [], []⟩ "c" = ⟨[], [], [], []⟩ ∧
    find_related_chunks ⟨true, false⟩ ⟨[], [], [], []⟩ "c" 10 = [] ∧
    get_all_prds ⟨true, false⟩ ⟨[], [], [], []⟩ (fun _ => ([] : List Nat)) = [] ∧
    get_prd_details ⟨true, false⟩ ⟨[], [], [], []⟩ "p" = none ∧
    get_graph_stats ⟨true, false⟩ ⟨[], [], [], []⟩ (fun _ => ([] : List Nat)) = none ∧
    get_full_traceability ⟨true, false⟩ ⟨[], [], [], []⟩ "c" 3 =
      ⟨"c", none, [], [], [], [], [], []⟩ :=
  degraded_ops_return_empty ⟨true, false⟩ ⟨[], [], [], []⟩ "c" "p" "outgoing" 3 10
    (fun _ => ([] : List Nat)) (fun _ => ([] : List Nat)) (fun _ => ([] : List Nat))
    (Or.inr rfl)

/-! ## C6: coverage counts -/

theorem length_filter_flatMap {α β : Type} (l : List α) (F : α → List β) (P : β → Bool) :
    ((l.flatMap F).filter P).length =
      (l.map (fun a => ((F a).filter P).length)).sum := by
  induction l with
  | nil => rfl
  | cons a rest ih => simp [List.filter_append, ih]

theorem sum_map_ite_one {α : Type} (l : List α) (Q : α → Prop) [DecidablePred Q] :
    (l.map (fun a => if Q a then 1 else 0)).sum =
      (l.filter (fun a => decide (Q a))).length := by
  induction l with
  | nil => rfl
  | cons a rest ih =>
    by_cases hQ : Q a <;> simp [hQ, ih] <;> omega

theorem filter_eq_length_nodup {α : Type} [DecidableEq α] (a : α) :
    ∀ l : List α, l.Nodup →
      (l.filter (fun x => x = a)).length = if a ∈ l then 1 else 0 := by
  intro l
  induction l with
  | nil =>
    intro _
    simp
  | cons b rest ih =>
    intro hl
    rw [List.nodup_cons] at hl
    by_cases hba : b = a
    · subst hba
      rw [List.filter_cons_of_pos (by simp)]
      have hz : (rest.filter (fun x => x = b)).length = 0 := by
        rw [List.length_eq_zero, List.filter_eq_nil_iff]
        intro x hx
        simp only [decide_eq_true_eq]
        intro hxb
        exact hl.1 (hxb ▸ hx)
      simp [hz]
    · rw [List.filter_cons_of_neg (by simp [hba]), ih hl.2]
      by_cases hm : a ∈ rest
      · rw [if_pos hm, if_pos (List.mem_cons_of_mem _ hm)]
      · rw [if_neg hm, if_neg]
        intro h
        rcases List.mem_cons.mp h with h | h
        · exact hba h.symm
        · exact hm h

theorem reqMatches_count (g : GraphState) (prd_id : String)
    (hedges : g.edges.Nodup) (hprds : (g.prds.map PrdNode.id).Nodup)
    (hprd : ∃ p ∈ g.prds, p.id = prd_id) :
    totalReqCount g prd_id = specReqCount g prd_id := by
  obtain ⟨p0, hp0, hp0id⟩ := hprd
  have hprdmem : prd_id ∈ g.prds.map PrdNode.id := hp0id ▸ List.mem_map_of_mem _ hp0
  have hprdcount : (g.prds.filter (fun p => p.id = prd_id)).length = 1 := by
    have h1 : (g.prds.filter (fun p => p.id = prd_id)).length =
        ((g.prds.map PrdNode.id).filter (fun x => x = prd_id)).length := by
      rw [List.filter_map, List.length_map]
      rfl
    rw [h1, filter_eq_length_nodup prd_id _ hprds, if_pos hprdmem]
  unfold totalReqCount reqMatches specReqCount
  rw [length_filter_flatMap, ← sum_map_ite_one]
  congr 1
  rw [List.map_eq_map_iff]
  intro c _
  rw [length_filter_flatMap]
  by_cases hty : c.typ ∈ reqTypes
  · have hinner : ∀ e ∈ g.edges,
        ((g.prds.map (fun p => (c, e, p))).filter
          (fun m => decide (m.2.1.src = m.1.id ∧ m.2.1.dst = m.2.2.id ∧
            m.2.1.typ = "BELONGS_TO" ∧ m.2.2.id = prd_id ∧ m.1.typ ∈ reqTypes))).length =
          if e = (⟨c.id, prd_id, "BELONGS_TO"⟩ : GEdge) then 1 else 0 := by
      intro e _
      rw [List.filter_map, List.length_map]
      by_cases heE : e = (⟨c.id, prd_id, "BELONGS_TO"⟩ : GEdge)
      · subst heE
        rw [if_pos rfl, ← hprdcount]
        apply congrArg
        apply List.filter_congr
        intro p _
        rw [Function.comp_apply, decide_eq_decide]
        constructor
        · rintro ⟨-, -, -, h4, -⟩
          exact h4
        · intro h
          exact ⟨rfl, h.symm, rfl, h, hty⟩
      · rw [if_neg heE, List.length_eq_zero, List.filter_eq_nil_iff]
        intro p _
        rw [Function.comp_apply, decide_eq_true_eq]
        rintro ⟨h1, h2, h3, h4, -⟩
        exact heE (by cases e; simp_all)
    calc (g.edges.map (fun e => ((g.prds.map (fun p => (c, e, p))).filter
            (fun m => decide (m.2.1.src = m.1.id ∧ m.2.1.dst = m.2.2.id ∧
              m.2.1.typ = "BELONGS_TO" ∧ m.2.2.id = prd_id ∧
              m.1.typ ∈ reqTypes))).length)).sum
        = (g.edges.map (fun e =>
            if e = (⟨c.id, prd_id, "BELONGS_TO"⟩ : GEdge) then 1 else 0)).sum := by
          rw [List.map_eq_map_iff.mpr hinner]
      _ = (g.edges.filter
            (fun e => e = (⟨c.id, prd_id, "BELONGS_TO"⟩ : GEdge))).length :=
          sum_map_ite_one _ _
      _ = if (⟨c.id, prd_id, "BELONGS_TO"⟩ : GEdge) ∈ g.edges then 1 else 0 :=
          filter_eq_length_nodup _ _ hedges
      _ = if c.typ ∈ reqTypes ∧
            (⟨c.id, prd_id, "BELONGS_TO"⟩ : GEdge) ∈ g.edges then 1 else 0 := by
          by_cases hmem : (⟨c.id, prd_id, "BELONGS_TO"⟩ : GEdge) ∈ g.edges <;>
            simp [hty, hmem]
  · rw [if_neg (by simp [hty])]
    apply List.sum_eq_zero
    intro x hx
    rcases List.mem_map.mp hx with ⟨e, he, rfl⟩
    rw [List.length_eq_zero, List.filter_eq_nil_iff]
    intro m hm
    rcases List.mem_map.mp hm with ⟨p, hp, rfl⟩
    rw [decide_eq_true_eq]
    rintro ⟨-, -, -, -, h5⟩
    exact hty h5

theorem coveredMatches_distinct_count (g : GraphState) (prd_id relType : String)
    (hnodes : (g.chunks.map GNode.id).Nodup)
    (hprd : ∃ p ∈ g.prds, p.id = prd_id) :
    coveredReqCount g prd_id relType = specCoveredCount g prd_id relType := by
  unfold coveredReqCount specCoveredCount
  have hset : ((coveredMatches g prd_id relType).map (fun m => m.2.2.1)).toFinset =
      (g.chunks.filter (fun c => decide (c.typ ∈ reqTypes ∧
        (⟨c.id, prd_id, "BELONGS_TO"⟩ : GEdge) ∈ g.edges ∧
        ∃ t ∈ g.chunks, (⟨t.id, c.id, relType⟩ : GEdge) ∈ g.edges))).toFinset := by
    ext x
    simp only [List.mem_toFinset, List.mem_map, List.mem_filter, decide_eq_true_eq]
    constructor
    · rintro ⟨m, hm, rfl⟩
      unfold coveredMatches at hm
      rw [List.mem_filter] at hm
      obtain ⟨hmem, hcond⟩ := hm
      rw [decide_eq_true_eq] at hcond
      obtain ⟨h1, h2, h3, h4, h5, h6, h7, h8⟩ := hcond
      simp only [List.mem_flatMap, List.mem_map] at hmem
      obtain ⟨t, ht, e1, he1, req, hreq, e2, he2, p, hp, hmeq⟩ := hmem
      cases hmeq
      refine ⟨hreq, h8, ?_, t, ht, ?_⟩
      · have : e2 = (⟨req.id, prd_id, "BELONGS_TO"⟩ : GEdge) := by
          cases e2
          simp_all
        exact this ▸ he2
      · have : e1 = (⟨t.id, req.id, relType⟩ : GEdge) := by
          cases e1
          simp_all
        exact this ▸ he1
    · rintro ⟨hx, hty, hbel, t, ht, htedge⟩
      obtain ⟨p0, hp0, hp0id⟩ := hprd
      refine ⟨(t, ⟨t.id, x.id, relType⟩, x, ⟨x.id, prd_id, "BELONGS_TO"⟩, p0), ?_, rfl⟩
      unfold coveredMatches
      rw [List.mem_filter]
      constructor
      · simp only [List.mem_flatMap, List.mem_map]
        exact ⟨t, ht, ⟨t.id, x.id, relType⟩, htedge, x, hx,
          ⟨x.id, prd_id, "BELONGS_TO"⟩, hbel, p0, hp0, rfl⟩
      · rw [decide_eq_true_eq]
        exact ⟨rfl, rfl, rfl, rfl, hp0id.symm, rfl, hp0id, hty⟩
  have hchunks : g.chunks.Nodup := List.Nodup.of_map _ hnodes
  calc ((coveredMatches g prd_id relType).map (fun m => m.2.2.1)).dedup.length
      = ((coveredMatches g prd_id relType).map (fun m => m.2.2.1)).toFinset.card :=
        (List.card_toFinset _).symm
    _ = ((g.chunks.filter (fun c => decide (c.typ ∈ reqTypes ∧
          (⟨c.id, prd_id, "BELONGS_TO"⟩ : GEdge) ∈ g.edges ∧
          ∃ t ∈ g.chunks, (⟨t.id, c.id, relType⟩ : GEdge) ∈ g.edges))).toFinset).card := by
        rw [hset]
    _ = _ := List.toFinset_card_of_nodup (hchunks.filter _)

set_option maxRecDepth 40000 in
/-- C6: over an idempotently built graph (no duplicate nodes or edges)
that contains the PRD node, `get_test_coverage` (resp.
`get_documentation_coverage`) returns `total = R`, `covered = C`,
`uncovered = R − C` and `coverage_percent = round(100·C/R, 2)` when
`R > 0` (0 when `R = 0`), where R counts the PRD's requirement-class
chunks and C those with ≥ 1 inbound `TESTS` (resp. `DOCUMENTS`) edge; in
particular the 4-requirement, 2-tested PRD yields total 4, covered 2,
coverage 50. -/
theorem coverage_counts_spec (conn : Conn) (g : GraphState) (prd_id : String)
    (hconn : conn.hasClient = true ∧ conn.available = true)
    (hnodes : (g.chunks.map GNode.id).Nodup)
    (hedges : g.edges.Nodup)
    (hprds : (g.prds.map PrdNode.id).Nodup)
    (hprd : ∃ p ∈ g.prds, p.id = prd_id) :
    ((get_test_coverage conn g prd_id).total_requirements = specReqCount g prd_id ∧
     (get_test_coverage conn g prd_id).covered_requirements =
       specCoveredCount g prd_id "TESTS" ∧
     (get_test_coverage conn g prd_id).uncovered_requirements =
       (specReqCount g prd_id : Int) - (specCoveredCount g prd_id "TESTS" : Int) ∧
     (get_test_coverage conn g prd_id).coverage_percent =
       (if 0 < specReqCount g prd_id then
          pyRound2 (100 * (specCoveredCount g prd_id "TESTS" : ℚ) / (specReqCount g prd_id : ℚ))
        else 0)) ∧
    ((get_documentation_coverage conn g prd_id).total_requirements = specReqCount g prd_id ∧
     (get_documentation_coverage conn g prd_id).covered_requirements =
       specCoveredCount g prd_id "DOCUMENTS" ∧
     (get_documentation_coverage conn g prd_id).uncovered_requirements =
       (specReqCount g prd_id : Int) - (specCoveredCount g prd_id "DOCUMENTS" : Int) ∧
     (get_documentation_coverage conn g prd_id).coverage_percent =
       (if 0 < specReqCount g prd_id then
          pyRound2 (100 * (specCoveredCount g prd_id "DOCUMENTS" : ℚ) / (specReqCount g prd_id : ℚ))
        else 0)) ∧
    get_test_coverage ⟨true, true⟩ covGraph "p" = ⟨"p", 4, 2, 2, 2, 50⟩ := by
  have hrun : ∀ (α : Type) (denote : GraphState → List α),
      runQuery conn g denote = denote g := by
    intro α denote
    unfold runQuery
    rw [if_pos ⟨hconn.1, hconn.2⟩]
  have hR := reqMatches_count g prd_id hedges hprds hprd
  have hCT := coveredMatches_distinct_count g prd_id "TESTS" hnodes hprd
  have hCD := coveredMatches_distinct_count g prd_id "DOCUMENTS" hnodes hprd
  have hpercent : ∀ C : Nat,
      pyRound2 (if 0 < specReqCount g prd_id then
        (C : ℚ) / (specReqCount g prd_id : ℚ) * 100 else 0) =
      (if 0 < specReqCount g prd_id then
        pyRound2 (100 * (C : ℚ) / (specReqCount g prd_id : ℚ)) else 0) := by
    intro C
    by_cases hpos : 0 < specReqCount g prd_id
    · rw [if_pos hpos, if_pos hpos]
      congr 1
      ring
    · rw [if_neg hpos, if_neg hpos, pyRound2_zero]
  refine ⟨⟨?_, ?_, ?_, ?_⟩, ⟨?_, ?_, ?_, ?_⟩, ?_⟩
  · show (runQuery conn g (fun g => [totalReqCount g prd_id])).headD 0 = _
    rw [hrun]
    exact hR
  · show (runQuery conn g (fun g => [coveredReqCount g prd_id "TESTS"])).headD 0 = _
    rw [hrun]
    exact hCT
  · show ((runQuery conn g (fun g => [totalReqCount g prd_id])).headD 0 : Int) -
      ((runQuery conn g (fun g => [coveredReqCount g prd_id "TESTS"])).headD 0 : Int) = _
    rw [hrun, hrun]
    show (totalReqCount g prd_id : Int) - (coveredReqCount g prd_id "TESTS" : Int) = _
    rw [hR, hCT]
  · show pyRound2 _ = _
    rw [hrun, hrun]
    show pyRound2 (if 0 < totalReqCount g prd_id then
      ((coveredReqCount g prd_id "TESTS" : ℚ) / (totalReqCount g prd_id : ℚ) * 100) else 0) = _
    rw [hR, hCT]
    exact hpercent _
  · show (runQuery conn g (fun g => [totalReqCount g prd_id])).headD 0 = _
    rw [hrun]
    exact hR
  · show (runQuery conn g (fun g => [coveredReqCount g prd_id "DOCUMENTS"])).headD 0 = _
    rw [hrun]
    exact hCD
  · show ((runQuery conn g (fun g => [totalReqCount g prd_id])).headD 0 : Int) -
      ((runQuery conn g (fun g => [coveredReqCount g prd_id "DOCUMENTS"])).headD 0 : Int) = _
    rw [hrun, hrun]
    show (totalReqCount g prd_id : Int) - (coveredReqCount g prd_id "DOCUMENTS" : Int) = _
    rw [hR, hCD]
  · show pyRound2 _ = _
    rw [hrun, hrun]
    show pyRound2 (if 0 < totalReqCount g prd_id then
      ((coveredReqCount g prd_id "DOCUMENTS" : ℚ) / (totalReqCount g prd_id : ℚ) * 100) else 0) = _
    rw [hR, hCD]
    exact hpercent _
  · have h4 : totalReqCount covGraph "p" = 4 := by decide
    have h2 : coveredReqCount covGraph "p" "TESTS" = 2 := by
      decide
    have ht2 : artifactTotal covGraph "p" "TESTS" = 2 := by
      decide
    unfold get_test_coverage runQuery
    rw [if_pos ⟨rfl, rfl⟩]
    simp only [List.headD_cons, h4, h2, ht2]
    norm_num [pyRound2, roundHalfEven, Coverage.mk.injEq]

theorem coverage_counts_spec_witness :
    get_test_coverage ⟨true, true⟩ covGraph "p" = ⟨"p", 4, 2, 2, 2, 50⟩ :=
  (coverage_counts_spec ⟨true, true⟩ covGraph "p" ⟨rfl, rfl⟩ (by decide) (by decide)
    (by decide) ⟨⟨"p", "P", ""⟩, by decide, rfl⟩).2.2

/-! ## C7: bounded `DEPENDS_ON` traversal -/

/-- Soundness and completeness of the bounded path enumeration: `p` is
enumerated from `cur` within `d` exactly when it is a nonempty
`DEPENDS_ON` chain from `cur` of length ≤ `d` with pairwise-distinct
edges avoiding `used`. -/
theorem mem_depPaths (g : GraphState) :
    ∀ (d : Nat) (used : List GEdge) (cur : String) (p : List GEdge),
      p ∈ depPaths g used cur d ↔
        (p ≠ [] ∧ p.length ≤ d ∧ isDepChain g cur p = true ∧ p.Nodup ∧
          ∀ e ∈ p, e ∉ used) := by
  intro d
  induction d with
  | zero =>
    intro used cur p
    simp only [depPaths, List.not_mem_nil, false_iff]
    rintro ⟨hne, hlen, -, -, -⟩
    exact hne (List.length_eq_zero.mp (Nat.le_zero.mp hlen))
  | succ d ih =>
    intro used cur p
    constructor
    · intro hp
      rw [depPaths, List.mem_flatMap] at hp
      obtain ⟨e, he, hpe⟩ := hp
      rw [List.mem_filter, decide_eq_true_eq] at he
      obtain ⟨hemem, hsrc, htyp, hnu⟩ := he
      rcases List.mem_cons.mp hpe with rfl | hpe
      · refine ⟨by simp, by simp, ?_, by simp, ?_⟩
        · simp [isDepChain, hemem, hsrc, htyp]
        · intro x hx
          rw [List.mem_singleton] at hx
          exact hx ▸ hnu
      · rw [List.mem_map] at hpe
        obtain ⟨q, hq, rfl⟩ := hpe
        obtain ⟨hqne, hqlen, hqchain, hqnodup, hqused⟩ := (ih (e :: used) e.dst q).mp hq
        refine ⟨by simp, by simpa using Nat.succ_le_succ hqlen, ?_, ?_, ?_⟩
        · simp [isDepChain, hemem, hsrc, htyp, hqchain]
        · rw [List.nodup_cons]
          exact ⟨fun hin => (hqused e hin) (List.mem_cons_self _ _), hqnodup⟩
        · intro x hx
          rcases List.mem_cons.mp hx with rfl | hx
          · exact hnu
          · exact fun hxu => hqused x hx (List.mem_cons_of_mem _ hxu)
    · rintro ⟨hne, hlen, hchain, hnodup, hused⟩
      obtain ⟨e, q, rfl⟩ := List.exists_cons_of_ne_nil hne
      rw [isDepChain] at hchain
      simp only [Bool.and_eq_true, beq_iff_eq, decide_eq_true_eq] at hchain
      obtain ⟨⟨⟨hemem, htyp⟩, hsrc⟩, hqchain⟩ := hchain
      rw [depPaths, List.mem_flatMap]
      refine ⟨e, ?_, ?_⟩
      · rw [List.mem_filter, decide_eq_true_eq]
        exact ⟨hemem, hsrc, htyp, hused e (List.mem_cons_self _ _)⟩
      · rcases q with _ | ⟨e2, q'⟩
        · exact List.mem_cons_self _ _
        · apply List.mem_cons_of_mem
          rw [List.mem_map]
          refine ⟨e2 :: q', ?_, rfl⟩
          apply (ih (e :: used) e.dst (e2 :: q')).mpr
          refine ⟨by simp, ?_, hqchain, (List.nodup_cons.mp hnodup).2, ?_⟩
          · have : (e :: e2 :: q').length ≤ d + 1 := hlen
            simp only [List.length_cons] at this ⊢
            omega
          · intro x hx
            rintro hmem
            rcases List.mem_cons.mp hmem with rfl | hxu
            · exact (List.nodup_cons.mp hnodup).1 hx
            · exact hused x (List.mem_cons_of_mem _ hx) hxu

/-- The rows of the outgoing bounded traversal, characterised. -/
theorem mem_depRowsOut (g : GraphState) (chunk_id : String) (depth : Nat)
    (row : DepRow) :
    row ∈ depRowsOut g chunk_id depth ↔
      ((∃ c ∈ g.chunks, c.id = chunk_id) ∧
       ∃ dep ∈ g.chunks, row = depRow dep ∧
         ∃ p : List GEdge, p ≠ [] ∧ p.length ≤ depth ∧
           isDepChain g chunk_id p = true ∧ p.Nodup ∧
           pathEnd p chunk_id = dep.id) := by
  unfold depRowsOut
  simp only [List.mem_flatMap, List.mem_filter, List.mem_map, beq_iff_eq]
  constructor
  · rintro ⟨c, ⟨hc, hcid⟩, p, hp, dep, ⟨hdep, hdepid⟩, rfl⟩
    have hpath := (mem_depPaths g depth [] chunk_id p).mp hp
    exact ⟨⟨c, hc, hcid⟩, dep, hdep, rfl,
      p, hpath.1, hpath.2.1, hpath.2.2.1, hpath.2.2.2.1, hdepid.symm⟩
  · rintro ⟨⟨c, hc, hcid⟩, dep, hdep, rfl, p, h1, h2, h3, h4, h5⟩
    refine ⟨c, ⟨hc, hcid⟩, p, ?_, dep, ⟨hdep, h5.symm⟩, rfl⟩
    exact (mem_depPaths g depth [] chunk_id p).mpr
      ⟨h1, h2, h3, h4, fun e _ => List.not_mem_nil e⟩

/-- C7 (amended): `get_dependencies` issues no `DISTINCT` — it returns one
row per relationship-distinct `DEPENDS_ON` path of length 1..depth in the
requested direction, so a chunk reached by several paths appears several
times (`get_dependencies_duplicate_rows_cex`); set-wise, a row occurs iff
its chunk is reachable from the anchor by such a path (over the
edge-reversed graph for the incoming direction). -/
theorem get_dependencies_path_rows (conn : Conn) (g : GraphState)
    (chunk_id direction : String) (depth : Nat) (row : DepRow)
    (hconn : conn.hasClient = true ∧ conn.available = true) :
    (direction = "outgoing" →
      (row ∈ get_dependencies conn g chunk_id depth direction ↔
        ((∃ c ∈ g.chunks, c.id = chunk_id) ∧
         ∃ dep ∈ g.chunks, row = depRow dep ∧
           ∃ p : List GEdge, p ≠ [] ∧ p.length ≤ depth ∧
             isDepChain g chunk_id p = true ∧ p.Nodup ∧
             pathEnd p chunk_id = dep.id))) ∧
    (direction ≠ "outgoing" →
      (row ∈ get_dependencies conn g chunk_id depth direction ↔
        ((∃ c ∈ g.chunks, c.id = chunk_id) ∧
         ∃ dep ∈ g.chunks, row = depRow dep ∧
           ∃ p : List GEdge, p ≠ [] ∧ p.length ≤ depth ∧
             isDepChain (flipGraph g) chunk_id p = true ∧ p.Nodup ∧
             pathEnd p chunk_id = dep.id))) := by
  unfold get_dependencies runQuery
  rw [if_pos ⟨hconn.1, hconn.2⟩]
  constructor
  · intro hdir
    simp only [if_pos hdir]
    exact mem_depRowsOut g chunk_id depth row
  · intro hdir
    simp only [if_neg hdir]
    have h := mem_depRowsOut (flipGraph g) chunk_id depth row
    simpa [flipGraph] using h

theorem get_dependencies_path_rows_witness :
    depRow ⟨"b", "requirement", "", "", ""⟩ ∈
        get_dependencies ⟨true, true⟩ depCexGraph "a" 2 "outgoing" ↔
      ((∃ c ∈ depCexGraph.chunks, c.id = "a") ∧
       ∃ dep ∈ depCexGraph.chunks,
         depRow ⟨"b", "requirement", "", "", ""⟩ = depRow dep ∧
         ∃ p : List GEdge, p ≠ [] ∧ p.length ≤ 2 ∧
           isDepChain depCexGraph "a" p = true ∧ p.Nodup ∧
           pathEnd p "a" = dep.id) :=
  (get_dependencies_path_rows ⟨true, true⟩ depCexGraph "a" "outgoing" 2
    (depRow ⟨"b", "requirement", "", "", ""⟩) ⟨rfl, rfl⟩).1 rfl

/-- C7 is false as stated: in the diamond graph, `get_dependencies` at
depth 2 returns the chunk `d` twice — one row per path — so the returned
list is not deduplicated. -/
theorem get_dependencies_duplicate_rows_cex :
    ((get_dependencies ⟨true, true⟩ depCexGraph "a" 2 "outgoing").filter
      (fun r => r.chunk_id == "d")).length = 2 := by
  decide

end CvPrd
